import Mathlib

/-!
Verification development for the zesbe-go agentic tool-calling loop.

Strings are modelled as `String`/`List Char`; Go indexes bytes, so byte
positions and rune positions coincide on ASCII data, which is the granularity
used throughout.  Regular-expression behaviour (Go `regexp`, leftmost
non-overlapping matches, non-greedy `.*?`) is embedded as explicit scanning
functions over `List Char`.  Filesystem/shell/git tool bodies are external
collaborators and are passed in as an explicit `ToolImpls` record; everything
else is translated directly from the Go source.
-/

namespace Zesbe

/-- The newline character. -/
def nl : Char := Char.ofNat 10

/-- The opening curly brace, written via its code point. -/
def lbrace : Char := Char.ofNat 123

/-- The closing curly brace, written via its code point. -/
def rbrace : Char := Char.ofNat 125

/-- Character class of Go's `regexp` `\s` (RE2 Perl class): `[\t\n\f\r ]`. -/
def isWsRe (c : Char) : Bool :=
  c = ' ' || c = Char.ofNat 9 || c = nl || c = Char.ofNat 12 || c = Char.ofNat 13

/-- Character predicate of Go's `unicode.IsSpace` (the `White_Space` property),
used by `strings.TrimSpace`. -/
def goIsSpace (c : Char) : Bool :=
  c = ' ' || c = Char.ofNat 9 || c = nl || c = Char.ofNat 11 || c = Char.ofNat 12 ||
  c = Char.ofNat 13 || c = Char.ofNat 0x85 || c = Char.ofNat 0xA0 ||
  c = Char.ofNat 0x1680 ||
  (0x2000 ≤ c.toNat && c.toNat ≤ 0x200A) ||
  c = Char.ofNat 0x2028 || c = Char.ofNat 0x2029 || c = Char.ofNat 0x202F ||
  c = Char.ofNat 0x205F || c = Char.ofNat 0x3000

/-- Substring containment over character lists, mirroring `strings.Contains`. -/
def containsList (s pat : List Char) : Bool :=
  pat.isPrefixOf s ||
    match s with
    | [] => false
    | _ :: t => containsList t pat

/-- Substring containment on strings, mirroring `strings.Contains`. -/
def goContains (s sub : String) : Bool :=
  containsList s.data sub.data

/-- Both-sided trim of Go's `strings.TrimSpace`, on character lists. -/
def goTrimSpaceList (l : List Char) : List Char :=
  ((l.dropWhile goIsSpace).reverse.dropWhile goIsSpace).reverse

/-- Go's `strings.TrimSpace`. -/
def goTrimSpace (s : String) : String :=
  String.mk (goTrimSpaceList s.data)

/-- The characters of the literal `<tool_call>` delimiter. -/
def toolCallOpenChars : List Char := "<tool_call>".data

/-- The characters of the literal `</tool_call>` delimiter. -/
def toolCallCloseChars : List Char := "</tool_call>".data

/-- Locate the end of the non-greedy payload `\{.*?\}` followed by
`\s*</tool_call>`: given the characters after the opening brace, find the
first `}` that is followed (after `\s*`) by `</tool_call>`.  Returns the
payload content (between the braces) together with the number of input
characters consumed (content, closing brace, whitespace, closing tag). -/
def findCloseLen : List Char → Option (List Char × Nat)
  | [] => none
  | c :: cs =>
    if c = rbrace && toolCallCloseChars.isPrefixOf (cs.dropWhile isWsRe) then
      some ([], 1 + (cs.takeWhile isWsRe).length + toolCallCloseChars.length)
    else
      match findCloseLen cs with
      | some (content, n) => some (c :: content, n + 1)
      | none => none

/-- Match of the regular expression `(?s)<tool_call>\s*(\{.*?\})\s*</tool_call>`
anchored at the start of `s` (used by both `ParseToolCalls` and
`RemoveToolCalls`).  Returns the captured payload `\{.*?\}` and the total
number of characters of `s` the match spans. -/
def toolCallMatchLen (s : List Char) : Option (List Char × Nat) :=
  if toolCallOpenChars.isPrefixOf s then
    let s₁ := s.drop toolCallOpenChars.length
    match s₁.dropWhile isWsRe with
    | c :: s₃ =>
      if c = lbrace then
        match findCloseLen s₃ with
        | some (content, n) =>
          some (lbrace :: (content ++ [rbrace]),
                toolCallOpenChars.length + (s₁.takeWhile isWsRe).length + 1 + n)
        | none => none
      else none
    | [] => none
  else none

/-- Fuelled body of the leftmost, non-overlapping scan for matches of the
tool-call block pattern; the fuel only forces structural recursion and is
always instantiated with the input length. -/
def toolCallScanFuel : Nat → List Char → List (List Char)
  | 0, _ => []
  | _ + 1, [] => []
  | fuel + 1, c :: cs =>
    match toolCallMatchLen (c :: cs) with
    | some (p, n) => p :: toolCallScanFuel fuel (cs.drop (n - 1))
    | none => toolCallScanFuel fuel cs

/-- Leftmost, non-overlapping scan for all matches of the tool-call block
pattern, returning the captured payloads in document order.  This is the
match enumeration of Go's `FindAllStringSubmatch` specialised to the
pattern of `ParseToolCalls`. -/
def toolCallScan (s : List Char) : List (List Char) :=
  toolCallScanFuel s.length s

/-- Fuelled body of the block-match removal. -/
def toolCallStripFuel : Nat → List Char → List Char
  | 0, _ => []
  | _ + 1, [] => []
  | fuel + 1, c :: cs =>
    match toolCallMatchLen (c :: cs) with
    | some (_, n) => toolCallStripFuel fuel (cs.drop (n - 1))
    | none => c :: toolCallStripFuel fuel cs

/-- Leftmost, non-overlapping removal of all matches of the tool-call block
pattern, keeping all other characters: the `ReplaceAllString _ ""` of
`RemoveToolCalls`. -/
def toolCallStrip (s : List Char) : List Char :=
  toolCallStripFuel s.length s

/-- Fuelled body of the newline-run collapsing. -/
def collapseNewlinesFuel : Nat → List Char → List Char
  | 0, _ => []
  | _ + 1, [] => []
  | fuel + 1, c :: cs =>
    if c = nl then
      (if (cs.takeWhile (fun d => d = nl)).length + 1 ≥ 3 then [nl, nl]
       else List.replicate ((cs.takeWhile (fun d => d = nl)).length + 1) nl) ++
        collapseNewlinesFuel fuel (cs.dropWhile (fun d => d = nl))
    else c :: collapseNewlinesFuel fuel cs

/-- Replacement of every maximal run of three or more newlines by exactly two,
mirroring `regexp.MustCompile("\n{3,}").ReplaceAllString(cleaned, "\n\n")`. -/
def collapseNewlines (s : List Char) : List Char :=
  collapseNewlinesFuel s.length s

/-- JSON whitespace characters (`encoding/json` scanner). -/
def jsonWs (c : Char) : Bool :=
  c = ' ' || c = Char.ofNat 9 || c = nl || c = Char.ofNat 13

/-- Drop leading JSON whitespace. -/
def skipJsonWs (s : List Char) : List Char := s.dropWhile jsonWs

/-- JSON values.  Numbers carry no payload: the decoder only needs to know a
value was a syntactically valid number. -/
inductive Json where
  | null : Json
  | boolean (b : Bool) : Json
  | number : Json
  | str (s : String) : Json
  | arr (elems : List Json) : Json
  | obj (members : List (String × Json)) : Json

/-- ASCII decimal digit test. -/
def isDigitCh (c : Char) : Bool := 48 ≤ c.toNat && c.toNat ≤ 57

/-- Hexadecimal digit value, for `\u` escapes. -/
def parseHexDigit (c : Char) : Option Nat :=
  if 48 ≤ c.toNat && c.toNat ≤ 57 then some (c.toNat - 48)
  else if 97 ≤ c.toNat && c.toNat ≤ 102 then some (c.toNat - 87)
  else if 65 ≤ c.toNat && c.toNat ≤ 70 then some (c.toNat - 55)
  else none

/-- Single-character JSON string escapes. -/
def escCharValue (e : Char) : Option Char :=
  if e = '"' || e = '\\' || e = '/' then some e
  else if e = 'b' then some (Char.ofNat 8)
  else if e = 'f' then some (Char.ofNat 12)
  else if e = 'n' then some nl
  else if e = 'r' then some (Char.ofNat 13)
  else if e = 't' then some (Char.ofNat 9)
  else none

/-- Fuelled body of JSON string-literal parsing (each step consumes at least
one character, so the input length is always enough fuel). -/
def parseJsonStringBodyFuel : Nat → List Char → Option (List Char × List Char)
  | 0, _ => none
  | _ + 1, [] => none
  | fuel + 1, c :: t =>
    if c = '"' then some ([], t)
    else if c = '\\' then
      match t with
      | [] => none
      | e :: t2 =>
        if e = 'u' then
          match t2 with
          | h1 :: h2 :: h3 :: h4 :: t3 =>
            match parseHexDigit h1, parseHexDigit h2, parseHexDigit h3, parseHexDigit h4 with
            | some a, some b, some cc, some d =>
              (parseJsonStringBodyFuel fuel t3).map
                (fun pr => (Char.ofNat (4096 * a + 256 * b + 16 * cc + d) :: pr.1, pr.2))
            | _, _, _, _ => none
          | _ => none
        else
          match escCharValue e with
          | some ch => (parseJsonStringBodyFuel fuel t2).map (fun pr => (ch :: pr.1, pr.2))
          | none => none
    else if c.toNat < 32 then none
    else (parseJsonStringBodyFuel fuel t).map (fun pr => (c :: pr.1, pr.2))

/-- Parse the body of a JSON string after the opening quote, returning the
decoded characters and the rest after the closing quote.  Raw control
characters are rejected, as in `encoding/json`.  A `\u` escape becomes the
code point it denotes (surrogate-pair recombination is not modelled; the
payloads under study are ASCII). -/
def parseJsonStringBody (s : List Char) : Option (List Char × List Char) :=
  parseJsonStringBodyFuel s.length s

/-- Parse the integer part of a JSON number (after an optional minus sign):
a single `0`, or a nonzero digit followed by digits. -/
def parseJsonIntPart : List Char → Option (List Char)
  | [] => none
  | c :: t =>
    if c = '0' then some t
    else if isDigitCh c then some (t.dropWhile isDigitCh)
    else none

/-- Parse the optional fraction and exponent of a JSON number. -/
def parseJsonFracExp (s : List Char) : Option (List Char) :=
  let afterFrac :=
    match s with
    | '.' :: t =>
      match t with
      | d :: _ => if isDigitCh d then some (t.dropWhile isDigitCh) else none
      | [] => none
    | _ => some s
  match afterFrac with
  | none => none
  | some s1 =>
    match s1 with
    | e :: t =>
      if e = 'e' || e = 'E' then
        let t1 := match t with
                  | sg :: t2 => if sg = '+' || sg = '-' then t2 else t
                  | [] => t
        match t1 with
        | d :: _ => if isDigitCh d then some (t1.dropWhile isDigitCh) else none
        | [] => none
      else some s1
    | [] => some s1

/-- Parse a full JSON number, returning the rest of the input. -/
def parseJsonNumber (s : List Char) : Option (List Char) :=
  let s1 := match s with
            | c :: t => if c = '-' then t else s
            | [] => s
  (parseJsonIntPart s1).bind parseJsonFracExp

mutual

/-- Parse one JSON value (fuelled recursive-descent, mirroring the grammar
accepted by `encoding/json`). -/
def parseJsonValue : Nat → List Char → Option (Json × List Char)
  | 0, _ => none
  | fuel + 1, s =>
    match skipJsonWs s with
    | [] => none
    | c :: t =>
      if c = '"' then
        (parseJsonStringBody t).map (fun pr => (Json.str (String.mk pr.1), pr.2))
      else if c = lbrace then
        (parseJsonMembers fuel true t).map (fun pr => (Json.obj pr.1, pr.2))
      else if c = '[' then
        (parseJsonElems fuel true t).map (fun pr => (Json.arr pr.1, pr.2))
      else if c = 't' then
        if "rue".data.isPrefixOf t then some (Json.boolean true, t.drop 3) else none
      else if c = 'f' then
        if "alse".data.isPrefixOf t then some (Json.boolean false, t.drop 4) else none
      else if c = 'n' then
        if "ull".data.isPrefixOf t then some (Json.null, t.drop 3) else none
      else if c = '-' || isDigitCh c then
        (parseJsonNumber (c :: t)).map (fun r => (Json.number, r))
      else none

/-- Parse the members of a JSON object after the opening brace (or after a
comma, in which case a closing brace is not allowed). -/
def parseJsonMembers : Nat → Bool → List Char → Option (List (String × Json) × List Char)
  | 0, _, _ => none
  | fuel + 1, allowClose, s =>
    match skipJsonWs s with
    | [] => none
    | c :: t =>
      if c = rbrace && allowClose then some ([], t)
      else if c = '"' then
        match parseJsonStringBody t with
        | none => none
        | some (key, r1) =>
          match skipJsonWs r1 with
          | ':' :: r2 =>
            match parseJsonValue fuel r2 with
            | none => none
            | some (v, r3) =>
              match skipJsonWs r3 with
              | c2 :: r4 =>
                if c2 = ',' then
                  (parseJsonMembers fuel false r4).map
                    (fun pr => ((String.mk key, v) :: pr.1, pr.2))
                else if c2 = rbrace then some ([(String.mk key, v)], r4)
                else none
              | [] => none
          | _ => none
      else none

/-- Parse the elements of a JSON array after the opening bracket (or after a
comma, in which case a closing bracket is not allowed). -/
def parseJsonElems : Nat → Bool → List Char → Option (List Json × List Char)
  | 0, _, _ => none
  | fuel + 1, allowClose, s =>
    match skipJsonWs s with
    | [] => none
    | c :: t =>
      if c = ']' && allowClose then some ([], t)
      else
        match parseJsonValue fuel (c :: t) with
        | none => none
        | some (v, r1) =>
          match skipJsonWs r1 with
          | c2 :: r2 =>
            if c2 = ',' then
              (parseJsonElems fuel false r2).map (fun pr => (v :: pr.1, pr.2))
            else if c2 = ']' then some ([v], r2)
            else none
          | [] => none

end

/-- A tool invocation parsed from model output
(`ToolCall{Name string; Params map[string]string}`); the Go map is modelled
as an association list built by last-wins insertion. -/
structure ToolCall where
  Name : String
  Params : List (String × String)
deriving DecidableEq, Repr

/-- Go map read `call.Params[k]`: the zero value `""` when absent. -/
def lookupParam (ps : List (String × String)) (k : String) : String :=
  match ps.find? (fun kv => kv.fst == k) with
  | some kv => kv.snd
  | none => ""

/-- Go map write: replace an existing key or append a new one. -/
def insertParam (ps : List (String × String)) (k v : String) : List (String × String) :=
  if ps.any (fun kv => kv.fst == k) then
    ps.map (fun kv => if kv.fst == k then (k, v) else kv)
  else ps ++ [(k, v)]

/-- Unmarshal a JSON object into `map[string]string`: every member value must
be a JSON string (`null` stores the zero value), inserted in order. -/
def jsonMembersToParams : List (String × Json) → List (String × String) →
    Option (List (String × String))
  | [], acc => some acc
  | (k, Json.str v) :: rest, acc => jsonMembersToParams rest (insertParam acc k v)
  | (k, Json.null) :: rest, acc => jsonMembersToParams rest (insertParam acc k "")
  | _ :: _, _ => none

/-- ASCII lowercasing of one character. -/
def charToLowerAscii (c : Char) : Char :=
  if 65 ≤ c.toNat && c.toNat ≤ 90 then Char.ofNat (c.toNat + 32) else c

/-- ASCII case folding used for `encoding/json` field-name matching. -/
def eqFoldAscii (a b : String) : Bool :=
  a.data.map charToLowerAscii == b.data.map charToLowerAscii

/-- Process the members of the top-level object the way `json.Unmarshal`
fills the `ToolCall` struct: `name` must be a string, `params` an object of
strings; unknown fields are skipped; later duplicates win; a type mismatch
makes the whole unmarshal fail (non-nil error). -/
def applyToolCallMembers : List (String × Json) → ToolCall → Option ToolCall
  | [], acc => some acc
  | (k, v) :: rest, acc =>
    if eqFoldAscii k "name" then
      match v with
      | Json.str s => applyToolCallMembers rest { acc with Name := s }
      | Json.null => applyToolCallMembers rest acc
      | _ => none
    else if eqFoldAscii k "params" then
      match v with
      | Json.obj ms =>
        match jsonMembersToParams ms acc.Params with
        | some ps => applyToolCallMembers rest { acc with Params := ps }
        | none => none
      | Json.null => applyToolCallMembers rest { acc with Params := [] }
      | _ => none
    else applyToolCallMembers rest acc

/-- The `json.Unmarshal(match[1], &call)` of `ParseToolCalls`: the payload
must be one complete JSON object (followed only by whitespace) whose typed
fields unmarshal without error. -/
def decodeToolCall (payload : List Char) : Option ToolCall :=
  match parseJsonValue (2 * payload.length + 2) payload with
  | some (Json.obj ms, rest) =>
    if skipJsonWs rest = [] then applyToolCallMembers ms ⟨"", []⟩ else none
  | _ => none

/-- `ParseToolCalls` from `internal/tools/executor.go`: all matches of
`(?s)<tool_call>\s*(\{.*?\})\s*</tool_call>` in document order, keeping the
payloads that unmarshal successfully. -/
def ParseToolCalls (response : String) : List ToolCall :=
  (toolCallScan response.data).filterMap decodeToolCall

/-- `RemoveToolCalls` from `internal/tools/executor.go`: delete every block
match, collapse runs of 3+ newlines to exactly two, then trim. -/
def RemoveToolCalls (response : String) : String :=
  String.mk (goTrimSpaceList (collapseNewlines (toolCallStrip response.data)))

/-- Index of the first occurrence of `</think>` in the input. -/
def thinkCloseIndex : List Char → Option Nat
  | [] => none
  | c :: cs =>
    if "</think>".data.isPrefixOf (c :: cs) then some 0
    else (thinkCloseIndex cs).map (· + 1)

/-- Fuelled body of think-block removal. -/
def removeThinkFuel : Nat → List Char → List Char
  | 0, _ => []
  | _ + 1, [] => []
  | fuel + 1, c :: cs =>
    if "<think>".data.isPrefixOf (c :: cs) then
      match thinkCloseIndex (cs.drop 6) with
      | some i => removeThinkFuel fuel ((cs.drop 6).drop (i + 8))
      | none => c :: removeThinkFuel fuel cs
    else c :: removeThinkFuel fuel cs

/-- Removal of every match of `(?s)<think>.*?</think>` (non-greedy: each
`<think>` is closed by the first following `</think>`). -/
def removeThink (s : List Char) : List Char :=
  removeThinkFuel s.length s

/-- `cleanThinkBlocks` from `internal/ai/client.go`: strip think blocks, then
`strings.TrimSpace`. -/
def cleanThinkBlocks (content : String) : String :=
  String.mk (goTrimSpaceList (removeThink content.data))

/-- The result of a tool execution. -/
structure ToolResult where
  Success : Bool
  Output : String
  Error : String
deriving DecidableEq, Repr

/-- A tool description from the static catalog. -/
structure ToolDefinition where
  Name : String
  Description : String
  Parameters : List String
deriving DecidableEq, Repr

/-- `GetToolDefinitions` from `internal/tools/executor.go`. -/
def GetToolDefinitions : List ToolDefinition :=
  [⟨"read_file", "Read the contents of a file", ["path"]⟩,
   ⟨"write_file", "Write content to a file (creates or overwrites)", ["path", "content"]⟩,
   ⟨"edit_file", "Replace specific text in a file", ["path", "old_content", "new_content"]⟩,
   ⟨"list_directory", "List files and folders in a directory", ["path"]⟩,
   ⟨"create_directory", "Create a new directory", ["path"]⟩,
   ⟨"delete_file", "Delete a file or empty directory", ["path"]⟩,
   ⟨"copy_file", "Copy a file to a new location", ["source", "destination"]⟩,
   ⟨"move_file", "Move a file to a new location", ["source", "destination"]⟩,
   ⟨"find_files", "Search for files matching a pattern", ["path", "pattern"]⟩,
   ⟨"grep_files", "Search for content in files", ["path", "pattern", "file_pattern"]⟩,
   ⟨"code_search", "Search code with language filter (go, python, js, ts, rust, etc)", ["path", "pattern", "language"]⟩,
   ⟨"find_todos", "Find TODO, FIXME, HACK comments in code", ["path"]⟩,
   ⟨"count_lines", "Count lines of code in project", ["path"]⟩,
   ⟨"analyze_code", "Analyze code structure and statistics", ["path"]⟩,
   ⟨"project_tree", "Show project structure as tree", ["path", "depth"]⟩,
   ⟨"run_command", "Execute a shell command", ["command"]⟩,
   ⟨"git_status", "Show git repository status", []⟩,
   ⟨"git_diff", "Show git diff (use staged=true for staged changes)", ["staged"]⟩,
   ⟨"git_log", "Show recent git commits", ["count"]⟩,
   ⟨"git_branch", "Show git branches", []⟩,
   ⟨"git_add", "Stage files for commit", ["files"]⟩,
   ⟨"git_commit", "Create a git commit", ["message"]⟩,
   ⟨"git_push", "Push to remote repository", ["remote", "branch"]⟩,
   ⟨"git_pull", "Pull from remote repository", ["remote", "branch"]⟩,
   ⟨"web_search", "Search the web using DuckDuckGo", ["query"]⟩,
   ⟨"fetch_url", "Fetch content from a URL", ["url"]⟩,
   ⟨"get_cwd", "Get current working directory", []⟩,
   ⟨"change_directory", "Change current working directory", ["path"]⟩,
   ⟨"system_info", "Get system information", []⟩]

/-- The individual tool bodies (filesystem, shell, git, web, system).  They
live in `internal/tools` but perform I/O, so the dispatch layer is modelled
as a function of this record of implementations; `ExecuteTool`'s own logic
(validation, defaulting, dispatch) is translated exactly. -/
structure ToolImpls where
  ReadFile : String → ToolResult
  WriteFile : String → String → ToolResult
  EditFile : String → String → String → ToolResult
  ListDirectory : String → ToolResult
  CreateDirectory : String → ToolResult
  DeleteFile : String → ToolResult
  CopyFile : String → String → ToolResult
  MoveFile : String → String → ToolResult
  FindFiles : String → String → ToolResult
  GrepFiles : String → String → String → ToolResult
  CodeSearch : String → String → String → ToolResult
  FindTodos : String → ToolResult
  CountLines : String → ToolResult
  AnalyzeCode : String → ToolResult
  ProjectTree : String → Int → ToolResult
  ExecuteCommand : String → Nat → ToolResult
  GitStatus : String → ToolResult
  GitDiff : String → Bool → ToolResult
  GitLog : String → Int → ToolResult
  GitBranch : String → ToolResult
  GitAdd : String → List String → ToolResult
  GitCommit : String → String → ToolResult
  GitPush : String → String → String → ToolResult
  GitPull : String → String → String → ToolResult
  WebSearch : String → ToolResult
  FetchURL : String → ToolResult
  GetWorkingDirectory : ToolResult
  ChangeDirectory : String → ToolResult
  GetSystemInfo : ToolResult

/-- `fmt.Sscanf(s, "%d", &x)`: skip spaces, optional sign, at least one
digit; on failure the destination keeps its previous value. -/
def sscanfInt (s : String) (dflt : Int) : Int :=
  let s1 := s.data.dropWhile goIsSpace
  let sgn : Bool × List Char :=
    match s1 with
    | c :: t => if c = '-' then (true, t) else if c = '+' then (false, t) else (false, s1)
    | [] => (false, s1)
  let ds := sgn.2.takeWhile isDigitCh
  if ds = [] then dflt
  else
    let v : Int := Int.ofNat (ds.foldl (fun acc c => acc * 10 + (c.toNat - 48)) 0)
    if sgn.1 then -v else v

/-- `strings.Fields`: split around runs of whitespace. -/
def fieldsAux : List Char → List Char → List String
  | [], acc => if acc = [] then [] else [String.mk acc.reverse]
  | c :: cs, acc =>
    if goIsSpace c then
      if acc = [] then fieldsAux cs []
      else String.mk acc.reverse :: fieldsAux cs []
    else fieldsAux cs (c :: acc)

/-- `strings.Fields` on strings. -/
def goFields (s : String) : List String := fieldsAux s.data []

/-- `ExecuteTool` from `internal/tools/executor.go`: parameter validation,
defaulting, and dispatch exactly as the Go `switch`. -/
def ExecuteTool (impl : ToolImpls) (call : ToolCall) : ToolResult :=
  if call.Name = "read_file" then
    let path := lookupParam call.Params "path"
    if path = "" then ⟨false, "", "path parameter required"⟩
    else impl.ReadFile path
  else if call.Name = "write_file" then
    let path := lookupParam call.Params "path"
    let content := lookupParam call.Params "content"
    if path = "" then ⟨false, "", "path parameter required"⟩
    else impl.WriteFile path content
  else if call.Name = "edit_file" then
    let path := lookupParam call.Params "path"
    let oldContent := lookupParam call.Params "old_content"
    let newContent := lookupParam call.Params "new_content"
    if path = "" || oldContent = "" then ⟨false, "", "path and old_content parameters required"⟩
    else impl.EditFile path oldContent newContent
  else if call.Name = "list_directory" then
    let path := lookupParam call.Params "path"
    impl.ListDirectory (if path = "" then "." else path)
  else if call.Name = "create_directory" then
    let path := lookupParam call.Params "path"
    if path = "" then ⟨false, "", "path parameter required"⟩
    else impl.CreateDirectory path
  else if call.Name = "delete_file" then
    let path := lookupParam call.Params "path"
    if path = "" then ⟨false, "", "path parameter required"⟩
    else impl.DeleteFile path
  else if call.Name = "copy_file" then
    let src := lookupParam call.Params "source"
    let dst := lookupParam call.Params "destination"
    if src = "" || dst = "" then ⟨false, "", "source and destination parameters required"⟩
    else impl.CopyFile src dst
  else if call.Name = "move_file" then
    let src := lookupParam call.Params "source"
    let dst := lookupParam call.Params "destination"
    if src = "" || dst = "" then ⟨false, "", "source and destination parameters required"⟩
    else impl.MoveFile src dst
  else if call.Name = "find_files" then
    let path := lookupParam call.Params "path"
    let pattern := lookupParam call.Params "pattern"
    impl.FindFiles (if path = "" then "." else path) (if pattern = "" then "*" else pattern)
  else if call.Name = "grep_files" then
    let path := lookupParam call.Params "path"
    let pattern := lookupParam call.Params "pattern"
    let filePattern := lookupParam call.Params "file_pattern"
    if pattern = "" then ⟨false, "", "pattern parameter required"⟩
    else impl.GrepFiles (if path = "" then "." else path) pattern filePattern
  else if call.Name = "code_search" then
    let path := lookupParam call.Params "path"
    let pattern := lookupParam call.Params "pattern"
    let language := lookupParam call.Params "language"
    if pattern = "" then ⟨false, "", "pattern parameter required"⟩
    else impl.CodeSearch (if path = "" then "." else path) pattern language
  else if call.Name = "find_todos" then
    let path := lookupParam call.Params "path"
    impl.FindTodos (if path = "" then "." else path)
  else if call.Name = "count_lines" then
    let path := lookupParam call.Params "path"
    impl.CountLines (if path = "" then "." else path)
  else if call.Name = "analyze_code" then
    let path := lookupParam call.Params "path"
    impl.AnalyzeCode (if path = "" then "." else path)
  else if call.Name = "project_tree" then
    let path := lookupParam call.Params "path"
    let d := lookupParam call.Params "depth"
    let depth : Int := if d = "" then 3 else sscanfInt d 3
    impl.ProjectTree (if path = "" then "." else path) depth
  else if call.Name = "run_command" then
    let command := lookupParam call.Params "command"
    if command = "" then ⟨false, "", "command parameter required"⟩
    else impl.ExecuteCommand command 30000000000
  else if call.Name = "git_status" then
    impl.GitStatus "."
  else if call.Name = "git_diff" then
    impl.GitDiff "." (lookupParam call.Params "staged" = "true")
  else if call.Name = "git_log" then
    let c := lookupParam call.Params "count"
    impl.GitLog "." (if c = "" then 10 else sscanfInt c 10)
  else if call.Name = "git_branch" then
    impl.GitBranch "."
  else if call.Name = "git_add" then
    let files := lookupParam call.Params "files"
    impl.GitAdd "." (goFields (if files = "" then "." else files))
  else if call.Name = "git_commit" then
    let message := lookupParam call.Params "message"
    if message = "" then ⟨false, "", "message parameter required"⟩
    else impl.GitCommit "." message
  else if call.Name = "git_push" then
    impl.GitPush "." (lookupParam call.Params "remote") (lookupParam call.Params "branch")
  else if call.Name = "git_pull" then
    impl.GitPull "." (lookupParam call.Params "remote") (lookupParam call.Params "branch")
  else if call.Name = "web_search" then
    let query := lookupParam call.Params "query"
    if query = "" then ⟨false, "", "query parameter required"⟩
    else impl.WebSearch query
  else if call.Name = "fetch_url" then
    let url := lookupParam call.Params "url"
    if url = "" then ⟨false, "", "url parameter required"⟩
    else impl.FetchURL url
  else if call.Name = "get_cwd" then
    impl.GetWorkingDirectory
  else if call.Name = "change_directory" then
    let path := lookupParam call.Params "path"
    if path = "" then ⟨false, "", "path parameter required"⟩
    else impl.ChangeDirectory path
  else if call.Name = "system_info" then
    impl.GetSystemInfo
  else ⟨false, "", "unknown tool: " ++ call.Name⟩

/-- `FormatToolResult` from `internal/tools/executor.go`: fold a result into
a `<tool_result>` block for re-injection into the conversation. -/
def FormatToolResult (call : ToolCall) (result : ToolResult) : String :=
  "<tool_result name=\"" ++ call.Name ++ "\">\n" ++
  (if result.Success then result.Output
   else "Error: " ++ result.Error ++
     (if result.Output ≠ "" then "\nOutput: " ++ result.Output else "")) ++
  "\n</tool_result>"

/-- A visual indicator for tool operations (`internal/tools/indicators.go`). -/
structure ToolIndicator where
  Icon : String
  Action : String
  Description : String
  Category : String
deriving DecidableEq, Repr

/-- The indicator table of `GetToolIndicator`. -/
def toolIndicatorTable : List (String × ToolIndicator) :=
  [("read_file", ⟨"📖", "Reading", "Reading file contents", "file"⟩),
   ("write_file", ⟨"✍️", "Writing", "Writing file", "file"⟩),
   ("edit_file", ⟨"📝", "Editing", "Editing file", "file"⟩),
   ("list_directory", ⟨"📁", "Listing", "Listing directory", "file"⟩),
   ("create_directory", ⟨"📂", "Creating", "Creating directory", "file"⟩),
   ("delete_file", ⟨"🗑️", "Deleting", "Deleting file", "file"⟩),
   ("copy_file", ⟨"📋", "Copying", "Copying file", "file"⟩),
   ("move_file", ⟨"📦", "Moving", "Moving file", "file"⟩),
   ("find_files", ⟨"🔍", "Searching", "Finding files", "search"⟩),
   ("grep_files", ⟨"🔎", "Searching", "Searching in files", "search"⟩),
   ("code_search", ⟨"🔬", "Analyzing", "Searching code", "search"⟩),
   ("web_search", ⟨"🌐", "Searching", "Searching the web", "web"⟩),
   ("git_status", ⟨"📊", "Checking", "Git status", "git"⟩),
   ("git_diff", ⟨"📃", "Diffing", "Git diff", "git"⟩),
   ("git_log", ⟨"📜", "Viewing", "Git history", "git"⟩),
   ("git_add", ⟨"➕", "Staging", "Git add", "git"⟩),
   ("git_commit", ⟨"💾", "Committing", "Git commit", "git"⟩),
   ("git_branch", ⟨"🌿", "Branching", "Git branch", "git"⟩),
   ("git_push", ⟨"🚀", "Pushing", "Git push", "git"⟩),
   ("git_pull", ⟨"⬇️", "Pulling", "Git pull", "git"⟩),
   ("run_command", ⟨"⚡", "Running", "Executing command", "command"⟩),
   ("run_script", ⟨"📜", "Running", "Executing script", "command"⟩),
   ("analyze_code", ⟨"🔬", "Analyzing", "Analyzing code", "analysis"⟩),
   ("project_tree", ⟨"🌳", "Mapping", "Building project tree", "analysis"⟩),
   ("count_lines", ⟨"📏", "Counting", "Counting lines", "analysis"⟩),
   ("find_todos", ⟨"📋", "Finding", "Finding TODOs", "analysis"⟩),
   ("get_cwd", ⟨"📍", "Getting", "Current directory", "system"⟩),
   ("change_directory", ⟨"🚶", "Changing", "Changing directory", "system"⟩),
   ("system_info", ⟨"💻", "Checking", "System info", "system"⟩),
   ("fetch_url", ⟨"🌐", "Fetching", "Fetching URL", "web"⟩),
   ("download_file", ⟨"⬇️", "Downloading", "Downloading file", "web"⟩)]

/-- `GetToolIndicator` from `internal/tools/indicators.go`. -/
def GetToolIndicator (toolName : String) : ToolIndicator :=
  match toolIndicatorTable.find? (fun kv => kv.fst == toolName) with
  | some kv => kv.snd
  | none => ⟨"🔧", "Executing", toolName, "unknown"⟩

/-- `truncatePath` from `internal/tools/indicators.go`. -/
def truncatePath (s : String) (maxLen : Nat) : String :=
  if s.length ≤ maxLen then s
  else "..." ++ String.mk (s.data.drop (s.length - maxLen + 3))

/-- `truncateString` from `internal/tools/indicators.go`. -/
def truncateStringTools (s : String) (maxLen : Nat) : String :=
  if s.length ≤ maxLen then s
  else String.mk (s.data.take (maxLen - 3)) ++ "..."

/-- `FormatToolStart` from `internal/tools/indicators.go`. -/
def FormatToolStart (call : ToolCall) : String :=
  let indicator := GetToolIndicator call.Name
  let details :=
    if call.Name = "read_file" || call.Name = "write_file" ||
       call.Name = "edit_file" || call.Name = "delete_file" then
      let path := lookupParam call.Params "path"
      if path ≠ "" then "`" ++ truncatePath path 40 ++ "`" else ""
    else if call.Name = "list_directory" then
      let path := lookupParam call.Params "path"
      if path ≠ "" && path ≠ "." then "`" ++ truncatePath path 40 ++ "`" else ""
    else if call.Name = "run_command" then
      let cmd := lookupParam call.Params "command"
      if cmd ≠ "" then "`" ++ truncateStringTools cmd 50 ++ "`" else ""
    else if call.Name = "grep_files" || call.Name = "find_files" ||
            call.Name = "code_search" then
      let pattern := lookupParam call.Params "pattern"
      if pattern ≠ "" then "for `" ++ pattern ++ "`" else ""
    else if call.Name = "web_search" then
      let query := lookupParam call.Params "query"
      if query ≠ "" then "`" ++ truncateStringTools query 40 ++ "`" else ""
    else if call.Name = "git_commit" then
      let msg := lookupParam call.Params "message"
      if msg ≠ "" then "`" ++ truncateStringTools msg 40 ++ "`" else ""
    else ""
  if details ≠ "" then indicator.Icon ++ " **" ++ indicator.Action ++ "** " ++ details
  else indicator.Icon ++ " **" ++ indicator.Description ++ "**"

/-- The extension-to-language table of `detectLanguage` in
`internal/ai/client.go`. -/
def languageTable : List (String × String) :=
  [(".go", "go"), (".py", "python"), (".js", "javascript"), (".ts", "typescript"),
   (".tsx", "tsx"), (".jsx", "jsx"), (".rs", "rust"), (".java", "java"),
   (".c", "c"), (".cpp", "cpp"), (".h", "c"), (".hpp", "cpp"), (".cs", "csharp"),
   (".rb", "ruby"), (".php", "php"), (".swift", "swift"), (".kt", "kotlin"),
   (".scala", "scala"), (".sh", "bash"), (".bash", "bash"), (".zsh", "zsh"),
   (".fish", "fish"), (".sql", "sql"), (".html", "html"), (".css", "css"),
   (".scss", "scss"), (".less", "less"), (".json", "json"), (".yaml", "yaml"),
   (".yml", "yaml"), (".xml", "xml"), (".md", "markdown"), (".toml", "toml"),
   (".ini", "ini"), (".cfg", "ini"), (".conf", "conf"),
   (".dockerfile", "dockerfile"), (".proto", "protobuf"), (".graphql", "graphql"),
   (".vue", "vue"), (".svelte", "svelte"), (".dart", "dart"), (".lua", "lua"),
   (".r", "r"), (".m", "matlab"), (".pl", "perl"), (".ex", "elixir"),
   (".exs", "elixir"), (".erl", "erlang"), (".hs", "haskell"), (".clj", "clojure"),
   (".lisp", "lisp"), (".vim", "vim"), (".tf", "terraform"), (".hcl", "hcl")]

/-- The suffix of a lowercased path from its last dot (inclusive), if any:
`strings.LastIndex(ext, ".")` followed by slicing. -/
def extAfterLastDot (l : List Char) : Option (List Char) :=
  if l.contains '.' then
    some ('.' :: (l.reverse.takeWhile (fun c => !(c = '.'))).reverse)
  else none

/-- `detectLanguage` from `internal/ai/client.go` (`strings.ToLower` is
modelled at ASCII granularity). -/
def detectLanguage (path : String) : String :=
  match extAfterLastDot (path.data.map charToLowerAscii) with
  | none => ""
  | some e =>
    match languageTable.find? (fun kv => kv.fst == String.mk e) with
    | some kv => kv.snd
    | none => ""

/-- A chat message. -/
structure Message where
  Role : String
  Content : String
deriving DecidableEq, Repr

/-- Outcome of one `callAPIWithRetry` round trip: the accumulated response
text, or a terminal error after retries. -/
inductive ApiOutcome where
  | ok (response : String) : ApiOutcome
  | fail (msg : String) : ApiOutcome
deriving DecidableEq, Repr

/-- One emission of the per-turn goroutine: a string sent on `tokenChan` or
an error sent on `errChan`, in program order. -/
inductive Event where
  | token (s : String) : Event
  | errorEvt (msg : String) : Event
deriving DecidableEq, Repr

/-- The display truncation of a successful tool output in `Chat`
(`maxLen := 800`). -/
def displayOutput (o : String) : String :=
  if o.length > 800 then String.mk (o.data.take 800) ++ "\n... (truncated)" else o

/-- The code-fence type chosen for a tool's displayed output in `Chat`. -/
def codeTypeFor (call : ToolCall) : String :=
  if call.Name = "git_diff" then "diff"
  else if call.Name = "run_command" then "bash"
  else if call.Name = "read_file" then
    let path := lookupParam call.Params "path"
    if path ≠ "" then detectLanguage path else ""
  else ""

/-- The events emitted while executing one tool call inside `Chat`'s loop
body (`dur` abstracts the wall-clock duration string). -/
def toolCallEvents (impl : ToolImpls) (dur : String) (call : ToolCall) : List Event :=
  let result := ExecuteTool impl call
  Event.token (FormatToolStart call ++ "\n") ::
    (if result.Success then
      let output := displayOutput result.Output
      if output ≠ "" then
        [Event.token ("```" ++ codeTypeFor call ++ "\n" ++ output ++ "\n```\n"),
         Event.token ("✅ *Completed in " ++ dur ++ "*\n\n")]
      else [Event.token ("✅ *Completed in " ++ dur ++ "*\n\n")]
    else [Event.token ("❌ **Error:** " ++ result.Error ++ "\n\n")])

/-- The events of the whole per-iteration tool batch, in call order. -/
def toolLoopEvents (impl : ToolImpls) (durs : Nat → String) (calls : List ToolCall) :
    List Event :=
  (calls.enum.map (fun ic => toolCallEvents impl (durs ic.fst) ic.snd)).flatten

/-- The accumulated `toolResultsContent` builder of `Chat`: each call's
`FormatToolResult` followed by a blank line, in call order. -/
def toolResultsContent (impl : ToolImpls) : List ToolCall → String
  | [] => ""
  | call :: rest =>
    (FormatToolResult call (ExecuteTool impl call) ++ "\n\n") ++ toolResultsContent impl rest

/-- The synthetic user message content carrying the tool results back to the
model. -/
def toolResultsMessageContent (impl : ToolImpls) (calls : List ToolCall) : String :=
  "Tool results:\n" ++ toolResultsContent impl calls ++
    "\n\nNow provide your response based on these results. If you need more information, use more tools. Otherwise, explain what you found."

/-- The warning emitted when the tool loop runs out of iterations. -/
def maxIterationsWarning : String := "\n⚠️ Maximum tool iterations reached."

/-- The tool-execution loop of `Chat` in `internal/ai/client.go`, from the
beginning of iteration `iter` with `fuel` iterations left.  The transport is
abstracted by `oracle` (the result of `callAPIWithRetry` for each
iteration); the rate limiter blocks but never fails under a background
context.  Returns the emitted events, the final history, and the number of
`callAPIWithRetry` invocations. -/
def chatLoop (oracle : Nat → ApiOutcome) (impl : ToolImpls) (durStr : Nat → Nat → String) :
    Nat → Nat → List Message → List Event × List Message × Nat
  | _, 0, msgs => ([Event.token maxIterationsWarning], msgs, 0)
  | iter, fuel + 1, msgs =>
    match oracle iter with
    | ApiOutcome.fail e => ([Event.errorEvt e], msgs, 1)
    | ApiOutcome.ok response =>
      match ParseToolCalls response with
      | [] =>
        ([Event.token (cleanThinkBlocks response)],
         msgs ++ [Message.mk "assistant" response], 1)
      | call :: calls =>
        let displayResponse := cleanThinkBlocks (RemoveToolCalls response)
        let preamble : List Event :=
          if displayResponse ≠ "" then [Event.token (displayResponse ++ "\n\n")] else []
        let callEvents := toolLoopEvents impl (durStr iter) (call :: calls)
        let newMsgs := msgs ++
          [Message.mk "assistant" response,
           Message.mk "user" (toolResultsMessageContent impl (call :: calls))]
        let next := chatLoop oracle impl durStr (iter + 1) fuel newMsgs
        (preamble ++ callEvents ++ next.1, next.2.1, next.2.2 + 1)

/-- The `maxToolLoops` installed by `NewClient`. -/
def newClientMaxToolLoops : Nat := 10

/-- One `Chat` turn: append the user message, then run the tool loop. -/
def chatTurn (maxToolLoops : Nat) (oracle : Nat → ApiOutcome) (impl : ToolImpls)
    (durStr : Nat → Nat → String) (history : List Message) (userMessage : String) :
    List Event × List Message × Nat :=
  chatLoop oracle impl durStr 0 maxToolLoops (history ++ [Message.mk "user" userMessage])

/-- The history installed by `NewClient`: a single system message. -/
def newClientMessages (systemPrompt : String) : List Message :=
  [Message.mk "system" systemPrompt]

/-- `ClearHistory` from `internal/ai/client.go`. -/
def clearHistory (msgs : List Message) : List Message :=
  if msgs.length > 0 then msgs.take 1 else msgs

/-- `SetSystemPrompt` from `internal/ai/client.go`. -/
def setSystemPrompt (msgs : List Message) (prompt : String) : List Message :=
  match msgs with
  | m :: rest =>
    if m.Role = "system" then Message.mk m.Role prompt :: rest
    else Message.mk "system" prompt :: m :: rest
  | [] => [Message.mk "system" prompt]

/-- `LoadMessages` from `internal/ai/client.go`. -/
def loadMessages (msgs loaded : List Message) : List Message :=
  match msgs with
  | m :: _ => if m.Role = "system" then m :: loaded else loaded
  | [] => loaded

/-- The client histories reachable through the public mutators: construction,
whole `Chat` turns, `ClearHistory`, `SetSystemPrompt`, `LoadMessages`. -/
inductive ReachableHistory : List Message → Prop where
  | init (systemPrompt : String) : ReachableHistory (newClientMessages systemPrompt)
  | chat (oracle : Nat → ApiOutcome) (impl : ToolImpls) (durStr : Nat → Nat → String)
      (u : String) {ms : List Message} :
      ReachableHistory ms →
      ReachableHistory (chatTurn newClientMaxToolLoops oracle impl durStr ms u).2.1
  | clear {ms : List Message} : ReachableHistory ms → ReachableHistory (clearHistory ms)
  | setSystem (p : String) {ms : List Message} :
      ReachableHistory ms → ReachableHistory (setSystemPrompt ms p)
  | load (loaded : List Message) {ms : List Message} :
      ReachableHistory ms → ReachableHistory (loadMessages ms loaded)

/-- Retry configuration (`RetryConfig` in `internal/ai/client.go`).
Durations are nanoseconds; the float64 multiplier is modelled as a
rational. -/
structure RetryConfig where
  MaxRetries : Nat
  InitialWait : Nat
  MaxWait : Nat
  Multiplier : ℚ
deriving DecidableEq, Repr

/-- `DefaultRetryConfig`. -/
def DefaultRetryConfig : RetryConfig :=
  ⟨3, 1000000000, 30000000000, 2⟩

/-- Largest `time.Duration` value (int64 nanoseconds). -/
def maxDurationNs : Nat := 2 ^ 63 - 1

/-- The backoff of `retry.NewExponential(base)` from sethvargo/go-retry: the
n-th wait (n from 0) doubles the base each attempt, saturating at the
maximal duration. -/
def retryNewExponential (base : Nat) (n : Nat) : Nat :=
  min (base * 2 ^ n) maxDurationNs

/-- `retry.WithCappedDuration(cap, b)`: each wait is capped at `cap`. -/
def retryWithCappedDuration (cap : Nat) (b : Nat → Nat) : Nat → Nat :=
  fun n => min (b n) cap

/-- The wait before retry `n + 1` inside `callAPIWithRetry`: the exponential
backoff built from `InitialWait`, capped by `MaxWait` (the `Multiplier`
field is not passed to the backoff constructor). -/
def callAPIWithRetryWait (cfg : RetryConfig) : Nat → Nat :=
  retryWithCappedDuration cfg.MaxWait (retryNewExponential cfg.InitialWait)

/-- Modelled from the spec: "wait = min(initial_wait * multiplier^n,
max_wait), n starting at 0", with the configured `Multiplier`. -/
def specBackoffWait (cfg : RetryConfig) (n : Nat) : ℚ :=
  min ((cfg.InitialWait : ℚ) * cfg.Multiplier ^ n) (cfg.MaxWait : ℚ)

/-- `isRetryableError` from `internal/ai/client.go`: substring tests on the
error text. -/
def isRetryableError (errStr : String) : Bool :=
  goContains errStr "429" || goContains errStr "500" || goContains errStr "502" ||
  goContains errStr "503" || goContains errStr "504" ||
  goContains errStr "timeout" || goContains errStr "connection refused"

/-- The error text `callAPI` produces for a non-200 response: the status code
and either the decoded `error.message` or the raw body. -/
def apiHTTPErrorMessage (status : Nat) (body : String) : String :=
  "API error (" ++ toString status ++ "): " ++ body

/-- The HTTP statuses the spec calls retryable. -/
def retryableStatuses : List Nat := [429, 500, 502, 503, 504]

/-- Modelled from the spec: structured classification of a transport error
("HTTP status in {429,500,502,503,504}, or a transport-level timeout, or
connection-refused; all other errors are non-retryable"). -/
inductive ErrClass where
  | httpStatus (status : Nat) (body : String) : ErrClass
  | transportTimeout (msg : String) : ErrClass
  | connRefused (msg : String) : ErrClass
  | other (msg : String) : ErrClass

/-- Modelled from the spec: whether a classified error is retryable. -/
def specRetryable : ErrClass → Bool
  | ErrClass.httpStatus status _ => decide (status ∈ retryableStatuses)
  | ErrClass.transportTimeout _ => true
  | ErrClass.connRefused _ => true
  | ErrClass.other _ => false

/-- A tool-implementation record whose every operation returns the same
fixed result, used to instantiate theorems at concrete inputs. -/
def constImpl (r : ToolResult) : ToolImpls :=
  ⟨fun _ => r, fun _ _ => r, fun _ _ _ => r, fun _ => r, fun _ => r, fun _ => r,
   fun _ _ => r, fun _ _ => r, fun _ _ => r, fun _ _ _ => r, fun _ _ _ => r,
   fun _ => r, fun _ => r, fun _ => r, fun _ _ => r, fun _ _ => r, fun _ => r,
   fun _ _ => r, fun _ _ => r, fun _ => r, fun _ _ => r, fun _ _ => r,
   fun _ _ _ => r, fun _ _ _ => r, fun _ => r, fun _ => r, r, fun _ => r, r⟩

/-- A model response containing one well-formed `list_directory` tool call. -/
def sampleToolResponse : String :=
  "<tool_call>\x7b\"name\": \"list_directory\", \"params\": \x7b\"path\": \".\"\x7d\x7d</tool_call>"

/-- A response consisting of an unterminated brace payload followed by a
well-formed tool-call block. -/
def swallowResponse : String :=
  "<tool_call>\x7boops</tool_call><tool_call>\x7b\"name\": \"a\", \"params\": \x7b\x7d\x7d</tool_call>"

/-- The well-formed payload embedded in `swallowResponse`. -/
def swallowedPayload : String := "\x7b\"name\": \"a\", \"params\": \x7b\x7d\x7d"

/-- An input to `RemoveToolCalls` whose single block match, once removed,
splices its two surrounding fragments into a new block occurrence. -/
def spliceInput : String :=
  "<tool_call<tool_call>\x7b\x7d</tool_call>>\x7b\x7d</tool_call>"

/-- A segment of a model response: free text, or a delimited tool-call block
whose payload is the braces around `content`. -/
inductive Seg where
  | filler (s : String) : Seg
  | block (content : String) : Seg

/-- The payload `\{content\}` of a block. -/
def payloadChars (c : List Char) : List Char := lbrace :: (c ++ [rbrace])

/-- The characters of a delimited tool-call block with the given payload
content. -/
def blockChars (c : List Char) : List Char :=
  toolCallOpenChars ++ payloadChars c ++ toolCallCloseChars

/-- Characters of one segment. -/
def renderSegChars : Seg → List Char
  | Seg.filler s => s.data
  | Seg.block c => blockChars c.data

/-- Characters of a whole segmented response. -/
def renderDoc (d : List Seg) : List Char := (d.map renderSegChars).flatten

/-- Side condition making a segment well-behaved for the non-greedy block
regex: no `<` inside filler text or block payload content. -/
def segOk : Seg → Prop
  | Seg.filler s => '<' ∉ s.data
  | Seg.block c => '<' ∉ c.data

instance segOk.decide : DecidablePred segOk := fun seg =>
  match seg with
  | Seg.filler s => inferInstanceAs (Decidable ('<' ∉ s.data))
  | Seg.block c => inferInstanceAs (Decidable ('<' ∉ c.data))

/-- The block payloads of a segmented response, in document order. -/
def docPayloads (d : List Seg) : List (List Char) :=
  d.filterMap (fun seg =>
    match seg with
    | Seg.block c => some (payloadChars c.data)
    | Seg.filler _ => none)

/-- The filler characters of a segmented response, in document order. -/
def docFillers (d : List Seg) : List Char :=
  (d.filterMap (fun seg =>
    match seg with
    | Seg.filler s => some s.data
    | Seg.block _ => none)).flatten

/-- Three consecutive newlines, the forbidden run in display text. -/
def threeNewlineChars : List Char := [nl, nl, nl]

/-- The tools whose `ExecuteTool` branch rejects a single missing parameter
with the message `"<param> parameter required"`. -/
def singleRequiredParams : List (String × String) :=
  [("read_file", "path"), ("write_file", "path"), ("create_directory", "path"),
   ("delete_file", "path"), ("grep_files", "pattern"), ("code_search", "pattern"),
   ("run_command", "command"), ("git_commit", "message"), ("web_search", "query"),
   ("fetch_url", "url"), ("change_directory", "path")]

/-- A segmented response mixing filler, two decodable blocks, and one
delimited block with an undecodable payload. -/
def sampleDoc : List Seg :=
  [Seg.filler "hello ",
   Seg.block "\"name\": \"a\", \"params\": \x7b\x7d",
   Seg.filler " mid ",
   Seg.block "bad json",
   Seg.block "\"name\": \"b\", \"params\": \x7b\"x\": \"y\"\x7d"]

/-- A segmented response with newline-rich filler around a block. -/
def sampleDoc2 : List Seg :=
  [Seg.filler "a\n\n\n\n",
   Seg.block "\"name\": \"c\", \"params\": \x7b\x7d",
   Seg.filler "\n\n\nz  "]

theorem containsList_eq_true_iff {s pat : List Char} :
    containsList s pat = true ↔ pat <:+: s := by
  induction s with
  | nil =>
    rw [containsList]
    simp [List.infix_nil]
  | cons a t ih =>
    rw [containsList]
    simp [List.infix_cons_iff, ih]

theorem infix_append_left {α : Type} {l b : List α} (a : List α) (h : l <:+: b) :
    l <:+: a ++ b := by
  obtain ⟨s, t, hst⟩ := h
  exact ⟨a ++ s, t, by rw [← hst]; simp⟩

theorem infix_append_right {α : Type} {l a : List α} (h : l <:+: a) (b : List α) :
    l <:+: a ++ b :=
  h.trans (List.prefix_append a b).isInfix

theorem containsList_append_left {s b pat : List Char}
    (h : containsList s pat = true) : containsList (s ++ b) pat = true :=
  containsList_eq_true_iff.mpr (infix_append_right (containsList_eq_true_iff.mp h) b)

/-- C5 counterexample: with an installable `RetryConfig` whose multiplier is
3, the code's first backoff wait is `initial_wait * 2` (2 s), while the
claimed formula `min(initial_wait * multiplier^1, max_wait)` gives 3 s. -/
theorem c5_counterexample :
    callAPIWithRetryWait ⟨3, 1000000000, 100000000000, 3⟩ 1 = 2000000000 ∧
    specBackoffWait ⟨3, 1000000000, 100000000000, 3⟩ 1 = 3000000000 := by
  constructor
  · decide
  · norm_num [specBackoffWait]

/-- C5 (amended): the backoff wait before attempt `n + 1` equals
`min(initial_wait * 2^n, max_wait)` — the `Multiplier` field of the
configured `RetryConfig` is never passed to the backoff and has no effect. -/
theorem c5_backoff_amended (cfg : RetryConfig) (n : Nat) (m : ℚ)
    (h : cfg.InitialWait * 2 ^ n ≤ maxDurationNs) :
    callAPIWithRetryWait cfg n = min (cfg.InitialWait * 2 ^ n) cfg.MaxWait ∧
    callAPIWithRetryWait { cfg with Multiplier := m } n = callAPIWithRetryWait cfg n := by
  unfold callAPIWithRetryWait retryWithCappedDuration retryNewExponential
  rw [Nat.min_eq_left h]
  exact ⟨rfl, rfl⟩

/-- Witness for the amended C5 theorem at the default configuration. -/
theorem c5_backoff_amended_witness :
    DefaultRetryConfig.InitialWait * 2 ^ 2 ≤ maxDurationNs ∧
    callAPIWithRetryWait DefaultRetryConfig 2 =
      min (DefaultRetryConfig.InitialWait * 2 ^ 2) DefaultRetryConfig.MaxWait ∧
    callAPIWithRetryWait { DefaultRetryConfig with Multiplier := 3 } 2 =
      callAPIWithRetryWait DefaultRetryConfig 2 :=
  ⟨by decide,
   (c5_backoff_amended DefaultRetryConfig 2 3 (by decide)).1,
   (c5_backoff_amended DefaultRetryConfig 2 3 (by decide)).2⟩

/-- C6 counterexample: a 404 response whose body happens to contain the
digits `500` is classified retryable by `isRetryableError` (substring
matching), although the spec classifies every non-retryable-status error as
non-retryable. -/
theorem c6_counterexample :
    isRetryableError (apiHTTPErrorMessage 404 "backend 500 hiccup") = true ∧
    specRetryable (ErrClass.httpStatus 404 "backend 500 hiccup") = false := by
  constructor
  · decide
  · decide

/-- C6 (amended): an error is retried iff its rendered message contains one
of the substrings `429`, `500`, `502`, `503`, `504`, `timeout`,
`connection refused`; every HTTP error with a status in the retryable set is
therefore retried (the status digits are embedded in the message), but other
errors whose message merely contains such a substring are retried too. -/
theorem c6_retryable_amended (status : Nat) (body : String) (e : String)
    (hs : status ∈ retryableStatuses) :
    isRetryableError (apiHTTPErrorMessage status body) = true ∧
    (isRetryableError e = true ↔
      ∃ pat ∈ (["429", "500", "502", "503", "504", "timeout", "connection refused"] : List String),
        pat.data <:+: e.data) := by
  constructor
  · simp only [retryableStatuses, List.mem_cons, List.not_mem_nil, or_false] at hs
    rcases hs with rfl | rfl | rfl | rfl | rfl
    · have h : goContains (apiHTTPErrorMessage 429 body) "429" = true := by
        unfold goContains apiHTTPErrorMessage
        simp only [String.data_append]
        exact containsList_append_left (by decide)
      simp [isRetryableError, h]
    · have h : goContains (apiHTTPErrorMessage 500 body) "500" = true := by
        unfold goContains apiHTTPErrorMessage
        simp only [String.data_append]
        exact containsList_append_left (by decide)
      simp [isRetryableError, h]
    · have h : goContains (apiHTTPErrorMessage 502 body) "502" = true := by
        unfold goContains apiHTTPErrorMessage
        simp only [String.data_append]
        exact containsList_append_left (by decide)
      simp [isRetryableError, h]
    · have h : goContains (apiHTTPErrorMessage 503 body) "503" = true := by
        unfold goContains apiHTTPErrorMessage
        simp only [String.data_append]
        exact containsList_append_left (by decide)
      simp [isRetryableError, h]
    · have h : goContains (apiHTTPErrorMessage 504 body) "504" = true := by
        unfold goContains apiHTTPErrorMessage
        simp only [String.data_append]
        exact containsList_append_left (by decide)
      simp [isRetryableError, h]
  · unfold isRetryableError goContains
    simp only [Bool.or_eq_true, containsList_eq_true_iff, List.exists_mem_cons_iff,
      List.not_mem_nil, false_and, exists_false, or_false]
    tauto

/-- Witness for the amended C6 theorem. -/
theorem c6_retryable_amended_witness :
    503 ∈ retryableStatuses ∧
    isRetryableError (apiHTTPErrorMessage 503 "overloaded") = true ∧
    (isRetryableError "dial tcp: connection refused" = true ↔
      ∃ pat ∈ (["429", "500", "502", "503", "504", "timeout", "connection refused"] : List String),
        pat.data <:+: ("dial tcp: connection refused" : String).data) :=
  ⟨by decide,
   (c6_retryable_amended 503 "overloaded" "dial tcp: connection refused" (by decide)).1,
   (c6_retryable_amended 503 "overloaded" "dial tcp: connection refused" (by decide)).2⟩

/-- C8: for every `ToolCall` whose name matches no registered tool,
`ExecuteTool` returns the failed result `unknown tool: <name>` (it never
panics: it is a total function), and `FormatToolResult` folds that result
into a `<tool_result>` block whose payload is `Error: ` plus the message. -/
theorem c8_unknown_tool (impl : ToolImpls) (call : ToolCall)
    (h : ∀ d ∈ GetToolDefinitions, call.Name ≠ d.Name) :
    ExecuteTool impl call = ⟨false, "", "unknown tool: " ++ call.Name⟩ ∧
    FormatToolResult call (ExecuteTool impl call) =
      "<tool_result name=\"" ++ call.Name ++ "\">\n" ++
        ("Error: " ++ ("unknown tool: " ++ call.Name)) ++ "\n</tool_result>" := by
  simp only [GetToolDefinitions, List.forall_mem_cons, List.not_mem_nil,
    false_implies, forall_const, and_true] at h
  obtain ⟨k1, q2, k3, q4, k5, q6, k7, q8, k9, q10, k11, q12, k13, q14, k15,
    q16, k17, q18, k19, q20, k21, q22, k23, q24, k25, q26, k27, q28, k29⟩ := h
  have hexec : ExecuteTool impl call = ⟨false, "", "unknown tool: " ++ call.Name⟩ := by
    simp only [ExecuteTool, k1, q2, k3, q4, k5, q6, k7, q8, k9, q10, k11, q12, k13,
      q14, k15, q16, k17, q18, k19, q20, k21, q22, k23, q24, k25, q26, k27, q28, k29,
      if_false, ite_false]
  refine ⟨hexec, ?_⟩
  rw [hexec]
  simp [FormatToolResult]

/-- Witness for the C8 theorem at the unknown name `frobnicate`. -/
theorem c8_unknown_tool_witness :
    (∀ d ∈ GetToolDefinitions, ("frobnicate" : String) ≠ d.Name) ∧
    ExecuteTool (constImpl ⟨true, "", ""⟩) ⟨"frobnicate", []⟩ =
      ⟨false, "", "unknown tool: " ++ "frobnicate"⟩ ∧
    FormatToolResult ⟨"frobnicate", []⟩
        (ExecuteTool (constImpl ⟨true, "", ""⟩) ⟨"frobnicate", []⟩) =
      "<tool_result name=\"" ++ "frobnicate" ++ "\">\n" ++
        ("Error: " ++ ("unknown tool: " ++ "frobnicate")) ++ "\n</tool_result>" :=
  ⟨by decide,
   (c8_unknown_tool (constImpl ⟨true, "", ""⟩) ⟨"frobnicate", []⟩ (by decide)).1,
   (c8_unknown_tool (constImpl ⟨true, "", ""⟩) ⟨"frobnicate", []⟩ (by decide)).2⟩

/-- C4 counterexample: `edit_file` and `list_directory` are registered tools
with required parameters, yet a call omitting one required parameter does not
produce `{success:false, error:"<param> parameter required"}`: `edit_file`
reports the combined message `path and old_content parameters required`, and
`list_directory` silently defaults the missing `path` to `.` and succeeds. -/
theorem c4_counterexample :
    (⟨"edit_file", "Replace specific text in a file",
        ["path", "old_content", "new_content"]⟩ : ToolDefinition) ∈ GetToolDefinitions ∧
    (⟨"list_directory", "List files and folders in a directory",
        ["path"]⟩ : ToolDefinition) ∈ GetToolDefinitions ∧
    ExecuteTool (constImpl ⟨true, "", ""⟩) ⟨"edit_file", [("path", "a")]⟩ ≠
      ⟨false, "", "old_content parameter required"⟩ ∧
    ExecuteTool (constImpl ⟨true, "", ""⟩) ⟨"list_directory", []⟩ ≠
      ⟨false, "", "path parameter required"⟩ := by
  refine ⟨by decide, by decide, by decide, by decide⟩

/-- C4 (amended): only the tools with exactly one checked parameter
(`read_file`/`write_file`/`create_directory`/`delete_file`/`change_directory`
on `path`, `grep_files`/`code_search` on `pattern`, `run_command` on
`command`, `git_commit` on `message`, `web_search` on `query`, `fetch_url` on
`url`) answer a missing required parameter with
`{success:false, error:"<param> parameter required"}`; `edit_file` answers a
missing `path` or `old_content` with the combined message
`path and old_content parameters required`, `copy_file`/`move_file` answer a
missing `source` or `destination` with
`source and destination parameters required`, and the remaining tools
substitute defaults instead of failing. -/
theorem c4_required_params_amended :
    (∀ (impl : ToolImpls) (params : List (String × String)) (name p : String),
        (name, p) ∈ singleRequiredParams → lookupParam params p = "" →
        ExecuteTool impl ⟨name, params⟩ = ⟨false, "", p ++ " parameter required"⟩) ∧
    (∀ (impl : ToolImpls) (params : List (String × String)),
        lookupParam params "path" = "" ∨ lookupParam params "old_content" = "" →
        ExecuteTool impl ⟨"edit_file", params⟩ =
          ⟨false, "", "path and old_content parameters required"⟩) ∧
    (∀ (impl : ToolImpls) (params : List (String × String)) (name : String),
        name = "copy_file" ∨ name = "move_file" →
        lookupParam params "source" = "" ∨ lookupParam params "destination" = "" →
        ExecuteTool impl ⟨name, params⟩ =
          ⟨false, "", "source and destination parameters required"⟩) := by
  refine ⟨?_, ?_, ?_⟩
  · intro impl params name p hmem hp
    fin_cases hmem <;> simp_all [ExecuteTool]
  · intro impl params hp
    rcases hp with hp | hp <;> simp [ExecuteTool, hp]
  · intro impl params name hname hp
    rcases hname with rfl | rfl <;> rcases hp with hp | hp <;> simp [ExecuteTool, hp]

/-- Witness for the amended C4 theorem: `run_command` without `command`, and
`edit_file` with no parameters. -/
theorem c4_required_params_amended_witness :
    ("run_command", "command") ∈ singleRequiredParams ∧
    ExecuteTool (constImpl ⟨true, "", ""⟩) ⟨"run_command", []⟩ =
      ⟨false, "", "command" ++ " parameter required"⟩ ∧
    ExecuteTool (constImpl ⟨true, "", ""⟩) ⟨"edit_file", []⟩ =
      ⟨false, "", "path and old_content parameters required"⟩ :=
  ⟨by decide,
   c4_required_params_amended.1 (constImpl ⟨true, "", ""⟩) [] "run_command" "command"
     (by decide) rfl,
   c4_required_params_amended.2.1 (constImpl ⟨true, "", ""⟩) [] (Or.inl rfl)⟩

/-- C2 counterexample: on a response with zero tool calls the loop emits
`cleanThinkBlocks(response)`, not the response unmodified — a response
containing a `<think>` block is emitted with the block stripped. -/
theorem c2_counterexample :
    (chatTurn newClientMaxToolLoops (fun _ => ApiOutcome.ok "<think>x</think>ok")
        (constImpl ⟨true, "", ""⟩) (fun _ _ => "") [] "hi").1 =
      [Event.token "ok"] ∧
    ("ok" : String) ≠ "<think>x</think>ok" := by
  refine ⟨by decide, by decide⟩

/-- C2 (amended): when the model response contains zero tool calls, the loop
emits `cleanThinkBlocks(response)` (the response with `<think>` spans removed
and surrounding whitespace trimmed) as the turn's answer on the token
channel, appends the raw unmodified response as an assistant `Message`, and
terminates after that single transport call. -/
theorem c2_final_response_amended (oracle : Nat → ApiOutcome) (impl : ToolImpls)
    (durStr : Nat → Nat → String) (history : List Message) (u r : String)
    (hok : oracle 0 = ApiOutcome.ok r) (hnone : ParseToolCalls r = []) :
    chatTurn newClientMaxToolLoops oracle impl durStr history u =
      ([Event.token (cleanThinkBlocks r)],
       history ++ [Message.mk "user" u, Message.mk "assistant" r], 1) := by
  have h10 : newClientMaxToolLoops = 9 + 1 := rfl
  unfold chatTurn
  rw [h10]
  simp [chatLoop, hok, hnone]

/-- Witness for the amended C2 theorem. -/
theorem c2_final_response_amended_witness :
    chatTurn newClientMaxToolLoops (fun _ => ApiOutcome.ok "plain answer")
        (constImpl ⟨true, "", ""⟩) (fun _ _ => "") [] "q" =
      ([Event.token (cleanThinkBlocks "plain answer")],
       [] ++ [Message.mk "user" "q", Message.mk "assistant" "plain answer"], 1) :=
  c2_final_response_amended (fun _ => ApiOutcome.ok "plain answer")
    (constImpl ⟨true, "", ""⟩) (fun _ _ => "") [] "q" "plain answer" rfl (by decide)

theorem chatLoop_exhaust (oracle : Nat → ApiOutcome) (impl : ToolImpls)
    (durStr : Nat → Nat → String) :
    ∀ (fuel iter : Nat) (msgs : List Message),
      (∀ j, j < fuel → ∃ r, oracle (iter + j) = ApiOutcome.ok r ∧ ParseToolCalls r ≠ []) →
      (chatLoop oracle impl durStr iter fuel msgs).2.2 = fuel ∧
      (chatLoop oracle impl durStr iter fuel msgs).1.getLast? =
        some (Event.token maxIterationsWarning) := by
  intro fuel
  induction fuel with
  | zero =>
    intro iter msgs _
    exact ⟨rfl, rfl⟩
  | succ n ih =>
    intro iter msgs h
    obtain ⟨r, hok, hcalls⟩ := h 0 (Nat.succ_pos n)
    rw [Nat.add_zero] at hok
    have ih1 := fun msgs2 => ih (iter + 1) msgs2 (fun j hj => by
      have hh := h (j + 1) (by omega)
      rwa [show iter + (j + 1) = iter + 1 + j by omega] at hh)
    cases hc : ParseToolCalls r with
    | nil => exact absurd hc hcalls
    | cons c cs =>
      have hcount := (ih1 (msgs ++
        [Message.mk "assistant" r,
         Message.mk "user" (toolResultsMessageContent impl (c :: cs))])).1
      have hlast := (ih1 (msgs ++
        [Message.mk "assistant" r,
         Message.mk "user" (toolResultsMessageContent impl (c :: cs))])).2
      constructor
      · simp only [chatLoop, hok, hc]
        rw [hcount]
      · simp only [chatLoop, hok, hc, List.getLast?_append, hlast]
        rfl

/-- C1: in a turn where every model response contains at least one tool call,
the loop performs exactly `maxToolLoops = 10` iterations — ten
`callAPIWithRetry` round trips and no eleventh — and the final emission on
the token channel is the `Maximum tool iterations reached` warning. -/
theorem c1_max_tool_loops (oracle : Nat → ApiOutcome) (impl : ToolImpls)
    (durStr : Nat → Nat → String) (history : List Message) (u : String)
    (h : ∀ i, i < newClientMaxToolLoops →
      ∃ r, oracle i = ApiOutcome.ok r ∧ ParseToolCalls r ≠ []) :
    (chatTurn newClientMaxToolLoops oracle impl durStr history u).2.2 = 10 ∧
    (chatTurn newClientMaxToolLoops oracle impl durStr history u).1.getLast? =
      some (Event.token maxIterationsWarning) := by
  have := chatLoop_exhaust oracle impl durStr 10 0
    (history ++ [Message.mk "user" u]) (fun j hj => by simpa using h j hj)
  exact this

/-- Witness for the C1 theorem: a model that answers every call with a
well-formed `list_directory` tool call. -/
theorem c1_max_tool_loops_witness :
    (chatTurn newClientMaxToolLoops (fun _ => ApiOutcome.ok sampleToolResponse)
        (constImpl ⟨true, "ok", ""⟩) (fun _ _ => "1ms") [] "list files").2.2 = 10 ∧
    (chatTurn newClientMaxToolLoops (fun _ => ApiOutcome.ok sampleToolResponse)
        (constImpl ⟨true, "ok", ""⟩) (fun _ _ => "1ms") [] "list files").1.getLast? =
      some (Event.token maxIterationsWarning) :=
  c1_max_tool_loops (fun _ => ApiOutcome.ok sampleToolResponse)
    (constImpl ⟨true, "ok", ""⟩) (fun _ _ => "1ms") [] "list files"
    (fun _ _ => ⟨sampleToolResponse, rfl, by decide⟩)

theorem chatLoop_messages_append (oracle : Nat → ApiOutcome) (impl : ToolImpls)
    (durStr : Nat → Nat → String) :
    ∀ (fuel iter : Nat) (msgs : List Message),
      ∃ t, (chatLoop oracle impl durStr iter fuel msgs).2.1 = msgs ++ t := by
  intro fuel
  induction fuel with
  | zero =>
    intro iter msgs
    exact ⟨[], by simp [chatLoop]⟩
  | succ n ih =>
    intro iter msgs
    cases hok : oracle iter with
    | fail e => exact ⟨[], by simp [chatLoop, hok]⟩
    | ok r =>
      cases hc : ParseToolCalls r with
      | nil =>
        exact ⟨[Message.mk "assistant" r], by simp [chatLoop, hok, hc]⟩
      | cons c cs =>
        obtain ⟨t, ht⟩ := ih (iter + 1) (msgs ++
          [Message.mk "assistant" r,
           Message.mk "user" (toolResultsMessageContent impl (c :: cs))])
        refine ⟨[Message.mk "assistant" r,
          Message.mk "user" (toolResultsMessageContent impl (c :: cs))] ++ t, ?_⟩
        simp only [chatLoop, hok, hc, ht]
        simp

theorem reachableHistory_head {ms : List Message} (hr : ReachableHistory ms) :
    ∃ c rest, ms = Message.mk "system" c :: rest := by
  induction hr with
  | init sp => exact ⟨sp, [], rfl⟩
  | chat oracle impl durStr u hms ih =>
    obtain ⟨c, rest, rfl⟩ := ih
    obtain ⟨t, ht⟩ := chatLoop_messages_append oracle impl durStr
      newClientMaxToolLoops 0
      ((Message.mk "system" c :: rest) ++ [Message.mk "user" u])
    refine ⟨c, rest ++ [Message.mk "user" u] ++ t, ?_⟩
    simp only [chatTurn, List.cons_append] at ht ⊢
    rw [ht]
  | clear hms ih =>
    obtain ⟨c, rest, rfl⟩ := ih
    exact ⟨c, [], by simp [clearHistory]⟩
  | setSystem p hms ih =>
    obtain ⟨c, rest, rfl⟩ := ih
    exact ⟨p, rest, by simp [setSystemPrompt]⟩
  | load loaded hms ih =>
    obtain ⟨c, rest, rfl⟩ := ih
    exact ⟨c, loaded, by simp [loadMessages]⟩

/-- C9: in every reachable client history, if the history is non-empty then
the message at index 0 has role `system`; every mutator (`Chat`'s appends,
`ClearHistory`, `SetSystemPrompt`, `LoadMessages`) preserves this. -/
theorem c9_system_message_invariant (ms : List Message)
    (hr : ReachableHistory ms) (m : Message) (rest : List Message)
    (hm : ms = m :: rest) : m.Role = "system" := by
  obtain ⟨c, rest2, hms⟩ := reachableHistory_head hr
  rw [hms] at hm
  injection hm with h1 _
  rw [← h1]

/-- Witness for the C9 theorem: a history reached by construction followed by
`ClearHistory` starts with the system message. -/
theorem c9_system_message_invariant_witness :
    (Message.mk "system" "sp").Role = "system" :=
  c9_system_message_invariant (clearHistory (newClientMessages "sp"))
    (ReachableHistory.clear (ReachableHistory.init "sp"))
    (Message.mk "system" "sp") [] (by decide)

theorem output_infix_formatToolResult (call : ToolCall) (r : ToolResult) :
    r.Output.data <:+: (FormatToolResult call r).data := by
  unfold FormatToolResult
  cases hr : r.Success
  · by_cases hO : r.Output = ""
    · rw [hO]
      exact List.nil_infix
    · simp only [hr, Bool.false_eq_true, if_false, hO, ne_eq, not_false_eq_true,
        if_true, String.data_append]
      apply infix_append_right
      apply infix_append_left
      apply infix_append_left
      apply infix_append_left
      exact List.infix_refl _
  · simp only [hr, if_true, String.data_append]
    apply infix_append_right
    apply infix_append_left
    exact List.infix_refl _

theorem formatToolResult_infix_content (impl : ToolImpls) {call : ToolCall}
    {calls : List ToolCall} (hmem : call ∈ calls) :
    (FormatToolResult call (ExecuteTool impl call)).data <:+:
      (toolResultsContent impl calls).data := by
  induction calls with
  | nil => cases hmem
  | cons c cs ih =>
    rcases List.mem_cons.mp hmem with rfl | hmem2
    · simp only [toolResultsContent, String.data_append]
      apply infix_append_right
      apply infix_append_right
      exact List.infix_refl _
    · simp only [toolResultsContent, String.data_append]
      exact infix_append_left _ (ih hmem2)

theorem displayOutput_ne_empty {o : String} (h : o ≠ "") : displayOutput o ≠ "" := by
  unfold displayOutput
  split
  · intro he
    have hd := congrArg String.data he
    simp only [String.data_append] at hd
    rw [List.append_eq_nil] at hd
    exact absurd hd.2 (by decide)
  · exact h

/-- C10: the formatted result of every tool call executed in a turn reaches
the synthetic conversation message with the tool's full output untruncated;
only the copy emitted on the display token channel is truncated, at 800
characters with a `... (truncated)` marker. -/
theorem c10_full_output_untruncated (impl : ToolImpls) (calls : List ToolCall)
    (call : ToolCall) (dur : String) (hmem : call ∈ calls) :
    (ExecuteTool impl call).Output.data <:+:
      (toolResultsMessageContent impl calls).data ∧
    ((ExecuteTool impl call).Success = true → (ExecuteTool impl call).Output ≠ "" →
      Event.token ("```" ++ codeTypeFor call ++ "\n" ++
          displayOutput (ExecuteTool impl call).Output ++ "\n```\n")
        ∈ toolCallEvents impl dur call) ∧
    (800 < (ExecuteTool impl call).Output.length →
      displayOutput (ExecuteTool impl call).Output =
        String.mk ((ExecuteTool impl call).Output.data.take 800) ++ "\n... (truncated)") := by
  refine ⟨?_, ?_, ?_⟩
  · unfold toolResultsMessageContent
    simp only [String.data_append]
    apply infix_append_right
    apply infix_append_left
    exact (output_infix_formatToolResult call (ExecuteTool impl call)).trans
      (formatToolResult_infix_content impl hmem)
  · intro hsucc hne
    simp [toolCallEvents, hsucc, displayOutput_ne_empty hne]
  · intro hlen
    unfold displayOutput
    rw [if_pos hlen]

/-- Witness for the C10 theorem at a one-call batch. -/
theorem c10_full_output_untruncated_witness :
    ((⟨"read_file", [("path", "m.go")]⟩ : ToolCall) ∈
      ([⟨"read_file", [("path", "m.go")]⟩] : List ToolCall)) ∧
    ((ExecuteTool (constImpl ⟨true, "abc", ""⟩) ⟨"read_file", [("path", "m.go")]⟩).Output.data <:+:
      (toolResultsMessageContent (constImpl ⟨true, "abc", ""⟩)
        [⟨"read_file", [("path", "m.go")]⟩]).data ∧
    ((ExecuteTool (constImpl ⟨true, "abc", ""⟩) ⟨"read_file", [("path", "m.go")]⟩).Success = true →
      (ExecuteTool (constImpl ⟨true, "abc", ""⟩) ⟨"read_file", [("path", "m.go")]⟩).Output ≠ "" →
      Event.token ("```" ++ codeTypeFor ⟨"read_file", [("path", "m.go")]⟩ ++ "\n" ++
          displayOutput (ExecuteTool (constImpl ⟨true, "abc", ""⟩)
            ⟨"read_file", [("path", "m.go")]⟩).Output ++ "\n```\n")
        ∈ toolCallEvents (constImpl ⟨true, "abc", ""⟩) "2ms" ⟨"read_file", [("path", "m.go")]⟩) ∧
    (800 < (ExecuteTool (constImpl ⟨true, "abc", ""⟩) ⟨"read_file", [("path", "m.go")]⟩).Output.length →
      displayOutput (ExecuteTool (constImpl ⟨true, "abc", ""⟩)
          ⟨"read_file", [("path", "m.go")]⟩).Output =
        String.mk ((ExecuteTool (constImpl ⟨true, "abc", ""⟩)
          ⟨"read_file", [("path", "m.go")]⟩).Output.data.take 800) ++ "\n... (truncated)")) :=
  ⟨by decide,
   c10_full_output_untruncated (constImpl ⟨true, "abc", ""⟩)
     [⟨"read_file", [("path", "m.go")]⟩] ⟨"read_file", [("path", "m.go")]⟩ "2ms"
     (by decide)⟩

theorem toolCallScanFuel_congr : ∀ (f1 : Nat) (s : List Char) (f2 : Nat),
    s.length ≤ f1 → s.length ≤ f2 →
    toolCallScanFuel f1 s = toolCallScanFuel f2 s := by
  intro f1
  induction f1 with
  | zero =>
    intro s f2 h1 _
    have hs : s = [] := List.eq_nil_of_length_eq_zero (Nat.le_zero.mp h1)
    subst hs
    cases f2 <;> rfl
  | succ n ih =>
    intro s f2 h1 h2
    cases s with
    | nil => cases f2 <;> rfl
    | cons c cs =>
      cases f2 with
      | zero => simp at h2
      | succ m =>
        simp only [List.length_cons, Nat.succ_le_succ_iff] at h1 h2
        simp only [toolCallScanFuel]
        cases hm : toolCallMatchLen (c :: cs) with
        | some pn =>
          have hd : (cs.drop (pn.2 - 1)).length ≤ cs.length := by
            simp [List.length_drop]
          exact congrArg (pn.1 :: ·)
            (ih (cs.drop (pn.2 - 1)) m (le_trans hd h1) (le_trans hd h2))
        | none => exact ih cs m h1 h2

theorem toolCallScan_cons_none {c : Char} {cs : List Char}
    (h : toolCallMatchLen (c :: cs) = none) :
    toolCallScan (c :: cs) = toolCallScan cs := by
  unfold toolCallScan
  simp only [List.length_cons, toolCallScanFuel, h]

theorem toolCallScan_cons_some {c : Char} {cs p : List Char} {n : Nat}
    (h : toolCallMatchLen (c :: cs) = some (p, n)) :
    toolCallScan (c :: cs) = p :: toolCallScan (cs.drop (n - 1)) := by
  unfold toolCallScan
  simp only [List.length_cons, toolCallScanFuel, h]
  exact congrArg (p :: ·)
    (toolCallScanFuel_congr cs.length _ _ (by simp [List.length_drop]) (le_refl _))

theorem toolCallStripFuel_congr : ∀ (f1 : Nat) (s : List Char) (f2 : Nat),
    s.length ≤ f1 → s.length ≤ f2 →
    toolCallStripFuel f1 s = toolCallStripFuel f2 s := by
  intro f1
  induction f1 with
  | zero =>
    intro s f2 h1 _
    have hs : s = [] := List.eq_nil_of_length_eq_zero (Nat.le_zero.mp h1)
    subst hs
    cases f2 <;> rfl
  | succ n ih =>
    intro s f2 h1 h2
    cases s with
    | nil => cases f2 <;> rfl
    | cons c cs =>
      cases f2 with
      | zero => simp at h2
      | succ m =>
        simp only [List.length_cons, Nat.succ_le_succ_iff] at h1 h2
        simp only [toolCallStripFuel]
        cases hm : toolCallMatchLen (c :: cs) with
        | some pn =>
          have hd : (cs.drop (pn.2 - 1)).length ≤ cs.length := by
            simp [List.length_drop]
          exact ih (cs.drop (pn.2 - 1)) m (le_trans hd h1) (le_trans hd h2)
        | none => exact congrArg (c :: ·) (ih cs m h1 h2)

theorem toolCallStrip_cons_none {c : Char} {cs : List Char}
    (h : toolCallMatchLen (c :: cs) = none) :
    toolCallStrip (c :: cs) = c :: toolCallStrip cs := by
  unfold toolCallStrip
  simp only [List.length_cons, toolCallStripFuel, h]

theorem toolCallStrip_cons_some {c : Char} {cs p : List Char} {n : Nat}
    (h : toolCallMatchLen (c :: cs) = some (p, n)) :
    toolCallStrip (c :: cs) = toolCallStrip (cs.drop (n - 1)) := by
  unfold toolCallStrip
  simp only [List.length_cons, toolCallStripFuel, h]
  exact toolCallStripFuel_congr cs.length _ _ (by simp [List.length_drop]) (le_refl _)

theorem toolCallMatchLen_none {c : Char} (cs : List Char) (h : c ≠ '<') :
    toolCallMatchLen (c :: cs) = none := by
  unfold toolCallMatchLen
  rw [if_neg]
  rw [show toolCallOpenChars = '<' :: "tool_call>".data from rfl,
    List.isPrefixOf_cons₂]
  simp [h]
  intro he
  exact absurd he.symm h

theorem toolCallScan_skip {f : List Char} (r : List Char) (hf : ∀ x ∈ f, x ≠ '<') :
    toolCallScan (f ++ r) = toolCallScan r := by
  induction f with
  | nil => rfl
  | cons c cs ih =>
    rw [List.cons_append,
      toolCallScan_cons_none (toolCallMatchLen_none _ (hf c (List.mem_cons_self c cs)))]
    exact ih (fun x hx => hf x (List.mem_cons_of_mem c hx))

theorem toolCallStrip_skip {f : List Char} (r : List Char) (hf : ∀ x ∈ f, x ≠ '<') :
    toolCallStrip (f ++ r) = f ++ toolCallStrip r := by
  induction f with
  | nil => rfl
  | cons c cs ih =>
    rw [List.cons_append,
      toolCallStrip_cons_none (toolCallMatchLen_none _ (hf c (List.mem_cons_self c cs))),
      ih (fun x hx => hf x (List.mem_cons_of_mem c hx)), List.cons_append]

theorem closeChars_not_prefix {a : Char} {l : List Char} (ha : a ≠ '<') :
    toolCallCloseChars.isPrefixOf (a :: l) = false := by
  have hb : ('<' == a) = false := by
    rw [beq_eq_false_iff_ne]
    exact fun he => ha he.symm
  rw [show toolCallCloseChars = '<' :: "/tool_call>".data from rfl,
    List.isPrefixOf_cons₂, hb, Bool.false_and]

theorem close_not_prefix_dropWhile {as : List Char} (w : List Char)
    (h : ∀ x ∈ as, x ≠ '<') :
    toolCallCloseChars.isPrefixOf ((as ++ rbrace :: w).dropWhile isWsRe) = false := by
  induction as with
  | nil =>
    rw [List.nil_append, List.dropWhile_cons, if_neg (by decide)]
    exact closeChars_not_prefix (by decide)
  | cons a as ih =>
    rw [List.cons_append, List.dropWhile_cons]
    by_cases hw : isWsRe a = true
    · rw [if_pos hw]
      exact ih (fun x hx => h x (List.mem_cons_of_mem a hx))
    · rw [if_neg hw]
      exact closeChars_not_prefix (h a (List.mem_cons_self a as))

theorem findCloseLen_block {content : List Char} (r : List Char)
    (h : ∀ x ∈ content, x ≠ '<') :
    findCloseLen (content ++ rbrace :: (toolCallCloseChars ++ r)) =
      some (content, content.length + 13) := by
  induction content with
  | nil =>
    rw [List.nil_append]
    unfold findCloseLen
    rw [if_pos]
    · rw [show (toolCallCloseChars ++ r).takeWhile isWsRe = [] from by
        rw [show toolCallCloseChars ++ r = '<' :: ("/tool_call>".data ++ r) from rfl,
          List.takeWhile_cons, if_neg (by decide)]]
      rw [show toolCallCloseChars.length = 12 from by decide]
      rfl
    · rw [show toolCallCloseChars ++ r = '<' :: ("/tool_call>".data ++ r) from rfl,
        List.dropWhile_cons, if_neg (by decide)]
      rw [show ('<' :: ("/tool_call>".data ++ r)) = toolCallCloseChars ++ r from rfl]
      simp [List.isPrefixOf_iff_prefix]
  | cons a as ih =>
    rw [List.cons_append]
    unfold findCloseLen
    rw [if_neg, ih (fun x hx => h x (List.mem_cons_of_mem a hx))]
    · rfl
    · rw [close_not_prefix_dropWhile (toolCallCloseChars ++ r)
        (fun x hx => h x (List.mem_cons_of_mem a hx)), Bool.and_false]
      simp

theorem blockChars_length (c : List Char) : (blockChars c).length = c.length + 25 := by
  unfold blockChars payloadChars
  simp only [List.length_append, List.length_cons, List.length_nil]
  rw [show toolCallOpenChars.length = 11 from by decide,
    show toolCallCloseChars.length = 12 from by decide]
  omega

theorem toolCallMatchLen_block {content : List Char} (r : List Char)
    (h : ∀ x ∈ content, x ≠ '<') :
    toolCallMatchLen (blockChars content ++ r) =
      some (payloadChars content, content.length + 25) := by
  rw [show blockChars content ++ r =
      toolCallOpenChars ++ (lbrace :: (content ++ rbrace :: (toolCallCloseChars ++ r))) from by
    simp [blockChars, payloadChars, List.append_assoc]]
  simp only [toolCallMatchLen]
  rw [if_pos (List.isPrefixOf_iff_prefix.mpr (List.prefix_append _ _))]
  rw [List.drop_left]
  rw [List.dropWhile_cons, if_neg (by decide), List.takeWhile_cons, if_neg (by decide)]
  show (if lbrace = lbrace then
      match findCloseLen (content ++ rbrace :: (toolCallCloseChars ++ r)) with
      | some (content2, n) =>
        some (lbrace :: (content2 ++ [rbrace]),
          toolCallOpenChars.length + ([] : List Char).length + 1 + n)
      | none => none
    else none) = some (payloadChars content, content.length + 25)
  rw [if_pos rfl, findCloseLen_block r h]
  simp only [List.length_nil, payloadChars]
  rw [show toolCallOpenChars.length = 11 from by decide]
  congr 2
  omega

theorem toolCallScan_some {s p : List Char} {n : Nat}
    (h : toolCallMatchLen s = some (p, n)) (hn : 1 ≤ n) :
    toolCallScan s = p :: toolCallScan (s.drop n) := by
  cases s with
  | nil =>
    rw [show toolCallMatchLen [] = none from rfl] at h
    cases h
  | cons c cs =>
    rw [toolCallScan_cons_some h]
    congr 2
    rw [show n = (n - 1) + 1 from by omega, List.drop_succ_cons]
    simp

theorem toolCallStrip_some {s p : List Char} {n : Nat}
    (h : toolCallMatchLen s = some (p, n)) (hn : 1 ≤ n) :
    toolCallStrip s = toolCallStrip (s.drop n) := by
  cases s with
  | nil =>
    rw [show toolCallMatchLen [] = none from rfl] at h
    cases h
  | cons c cs =>
    rw [toolCallStrip_cons_some h]
    congr 1
    rw [show n = (n - 1) + 1 from by omega, List.drop_succ_cons]
    simp

theorem toolCallScan_block {content : List Char} (r : List Char)
    (h : ∀ x ∈ content, x ≠ '<') :
    toolCallScan (blockChars content ++ r) = payloadChars content :: toolCallScan r := by
  rw [toolCallScan_some (toolCallMatchLen_block r h) (by omega)]
  congr 1
  rw [show content.length + 25 = (blockChars content).length from (blockChars_length content).symm]
  rw [List.drop_left]

theorem toolCallStrip_block {content : List Char} (r : List Char)
    (h : ∀ x ∈ content, x ≠ '<') :
    toolCallStrip (blockChars content ++ r) = toolCallStrip r := by
  rw [toolCallStrip_some (toolCallMatchLen_block r h) (by omega)]
  congr 1
  rw [show content.length + 25 = (blockChars content).length from (blockChars_length content).symm]
  rw [List.drop_left]

theorem toolCallScan_renderDoc (d : List Seg) (hok : ∀ seg ∈ d, segOk seg) :
    toolCallScan (renderDoc d) = docPayloads d := by
  induction d with
  | nil => rfl
  | cons seg rest ih =>
    have hrest := ih (fun s hs => hok s (List.mem_cons_of_mem _ hs))
    cases seg with
    | filler s =>
      have hs : '<' ∉ s.data := hok (Seg.filler s) (List.mem_cons_self _ _)
      rw [show renderDoc (Seg.filler s :: rest) = s.data ++ renderDoc rest from by
        simp [renderDoc, renderSegChars]]
      rw [toolCallScan_skip _ (fun x hx he => hs (he ▸ hx)), hrest]
      rfl
    | block c =>
      have hc : '<' ∉ c.data := hok (Seg.block c) (List.mem_cons_self _ _)
      rw [show renderDoc (Seg.block c :: rest) = blockChars c.data ++ renderDoc rest from by
        simp [renderDoc, renderSegChars]]
      rw [toolCallScan_block _ (fun x hx he => hc (he ▸ hx)), hrest]
      rfl

theorem toolCallStrip_renderDoc (d : List Seg) (hok : ∀ seg ∈ d, segOk seg) :
    toolCallStrip (renderDoc d) = docFillers d := by
  induction d with
  | nil => rfl
  | cons seg rest ih =>
    have hrest := ih (fun s hs => hok s (List.mem_cons_of_mem _ hs))
    cases seg with
    | filler s =>
      have hs : '<' ∉ s.data := hok (Seg.filler s) (List.mem_cons_self _ _)
      rw [show renderDoc (Seg.filler s :: rest) = s.data ++ renderDoc rest from by
        simp [renderDoc, renderSegChars]]
      rw [toolCallStrip_skip _ (fun x hx he => hs (he ▸ hx)), hrest]
      simp [docFillers]
    | block c =>
      have hc : '<' ∉ c.data := hok (Seg.block c) (List.mem_cons_self _ _)
      rw [show renderDoc (Seg.block c :: rest) = blockChars c.data ++ renderDoc rest from by
        simp [renderDoc, renderSegChars]]
      rw [toolCallStrip_block _ (fun x hx he => hc (he ▸ hx)), hrest]
      simp [docFillers]

theorem length_filterMap_eq_countP {α β : Type} (f : α → Option β) (l : List α) :
    (l.filterMap f).length = l.countP (fun a => (f a).isSome) := by
  induction l with
  | nil => rfl
  | cons y ys ih =>
    rw [List.filterMap_cons, List.countP_cons]
    cases hf : f y with
    | none => simp [hf, ih]
    | some b => simp [hf, ih]

/-- C3 counterexample: `swallowResponse` contains, verbatim, a well-formed
tool-call block whose payload decodes, yet `ParseToolCalls` returns nothing:
the preceding malformed block (`\{` with no closing brace) makes the
non-greedy payload match swallow the valid block, so a malformed block can
reduce the count of successfully extracted valid blocks. -/
theorem c3_counterexample :
    ("<tool_call>" ++ swallowedPayload ++ "</tool_call>").data <:+: swallowResponse.data ∧
    decodeToolCall swallowedPayload.data = some ⟨"a", []⟩ ∧
    ParseToolCalls swallowResponse = [] := by
  refine ⟨by decide, by decide, by decide⟩

/-- C3 (amended): for a response interleaving delimited brace-payload blocks
with filler, where neither filler nor payload contents contain `<`,
`ParseToolCalls` returns exactly the calls of the payloads that unmarshal,
in document order; its length equals the count of block payloads that
unmarshal, so malformed-but-delimited blocks among valid ones do not reduce
the count of extracted valid blocks.  (Without the `<`-freeness condition a
malformed block can swallow a following valid one, per the
counterexample.) -/
theorem c3_parse_tool_calls_amended (d : List Seg) (hok : ∀ seg ∈ d, segOk seg) :
    ParseToolCalls (String.mk (renderDoc d)) =
      (docPayloads d).filterMap decodeToolCall ∧
    (ParseToolCalls (String.mk (renderDoc d))).length =
      (docPayloads d).countP (fun p => (decodeToolCall p).isSome) := by
  have hmain : ParseToolCalls (String.mk (renderDoc d)) =
      (docPayloads d).filterMap decodeToolCall := by
    unfold ParseToolCalls
    rw [show (String.mk (renderDoc d)).data = renderDoc d from rfl,
      toolCallScan_renderDoc d hok]
  exact ⟨hmain, by rw [hmain, length_filterMap_eq_countP]⟩

/-- Witness for the amended C3 theorem on a five-segment document with two
valid and one malformed block. -/
theorem c3_parse_tool_calls_amended_witness :
    (∀ seg ∈ sampleDoc, segOk seg) ∧
    ParseToolCalls (String.mk (renderDoc sampleDoc)) =
      (docPayloads sampleDoc).filterMap decodeToolCall ∧
    (ParseToolCalls (String.mk (renderDoc sampleDoc))).length =
      (docPayloads sampleDoc).countP (fun p => (decodeToolCall p).isSome) :=
  ⟨by decide,
   (c3_parse_tool_calls_amended sampleDoc (by decide)).1,
   (c3_parse_tool_calls_amended sampleDoc (by decide)).2⟩

theorem collapseNewlinesFuel_congr : ∀ (f1 : Nat) (s : List Char) (f2 : Nat),
    s.length ≤ f1 → s.length ≤ f2 →
    collapseNewlinesFuel f1 s = collapseNewlinesFuel f2 s := by
  intro f1
  induction f1 with
  | zero =>
    intro s f2 h1 _
    have hs : s = [] := List.eq_nil_of_length_eq_zero (Nat.le_zero.mp h1)
    subst hs
    cases f2 <;> rfl
  | succ n ih =>
    intro s f2 h1 h2
    cases s with
    | nil => cases f2 <;> rfl
    | cons c cs =>
      cases f2 with
      | zero => simp at h2
      | succ m =>
        simp only [List.length_cons, Nat.succ_le_succ_iff] at h1 h2
        simp only [collapseNewlinesFuel]
        by_cases hc : c = nl
        · rw [if_pos hc, if_pos hc]
          have hd : (cs.dropWhile (fun d => d = nl)).length ≤ cs.length :=
            (List.dropWhile_suffix _).length_le
          rw [ih (cs.dropWhile (fun d => d = nl)) m (le_trans hd h1) (le_trans hd h2)]
        · rw [if_neg hc, if_neg hc, ih cs m h1 h2]

theorem collapseNewlines_cons_nl (cs : List Char) :
    collapseNewlines (nl :: cs) =
      (if (cs.takeWhile (fun d => d = nl)).length + 1 ≥ 3 then [nl, nl]
       else List.replicate ((cs.takeWhile (fun d => d = nl)).length + 1) nl) ++
        collapseNewlines (cs.dropWhile (fun d => d = nl)) := by
  unfold collapseNewlines
  simp only [List.length_cons, collapseNewlinesFuel]
  rw [if_pos trivial]
  congr 1
  exact collapseNewlinesFuel_congr cs.length _ _
    ((List.dropWhile_suffix _).length_le) (le_refl _)

theorem collapseNewlines_cons_other {c : Char} (cs : List Char) (h : c ≠ nl) :
    collapseNewlines (c :: cs) = c :: collapseNewlines cs := by
  unfold collapseNewlines
  simp only [List.length_cons, collapseNewlinesFuel]
  rw [if_neg h]

theorem collapseNewlines_head? (s : List Char) :
    (collapseNewlines s).head? = s.head? := by
  cases s with
  | nil => rfl
  | cons c cs =>
    by_cases h : c = nl
    · subst h
      rw [collapseNewlines_cons_nl]
      by_cases h3 : (cs.takeWhile (fun d => d = nl)).length + 1 ≥ 3
      · rw [if_pos h3]
        rfl
      · rw [if_neg h3, List.replicate_succ]
        rfl
    · rw [collapseNewlines_cons_other cs h]
      rfl

theorem dropWhile_head?_not {p : Char → Bool} {l : List Char} {a : Char}
    (h : (l.dropWhile p).head? = some a) : p a = false := by
  induction l with
  | nil => cases h
  | cons c cs ih =>
    rw [List.dropWhile_cons] at h
    by_cases hp : p c = true
    · rw [if_pos hp] at h
      exact ih h
    · rw [if_neg hp] at h
      injection h with h1
      rw [← h1]
      cases hb : p c with
      | false => rfl
      | true => exact absurd hb hp

theorem containsList_cons_eq (c : Char) (l pat : List Char) :
    containsList (c :: l) pat = (pat.isPrefixOf (c :: l) || containsList l pat) := by
  rw [containsList]

theorem no_triple_one {l : List Char} (hhead : l.head? ≠ some nl)
    (hl : containsList l threeNewlineChars = false) :
    containsList (nl :: l) threeNewlineChars = false := by
  rw [containsList_cons_eq, hl, Bool.or_false]
  cases l with
  | nil => decide
  | cons b t =>
    have hb : b ≠ nl := fun he => hhead (by subst he; rfl)
    rw [show threeNewlineChars = nl :: nl :: [nl] from rfl,
      List.isPrefixOf_cons₂, List.isPrefixOf_cons₂]
    rw [show (nl == b) = false from beq_eq_false_iff_ne.mpr (fun he => hb he.symm)]
    simp

theorem no_triple_two {l : List Char} (hhead : l.head? ≠ some nl)
    (hl : containsList l threeNewlineChars = false) :
    containsList (nl :: nl :: l) threeNewlineChars = false := by
  rw [containsList_cons_eq, no_triple_one hhead hl, Bool.or_false]
  cases l with
  | nil => decide
  | cons b t =>
    have hb : b ≠ nl := fun he => hhead (by subst he; rfl)
    rw [show threeNewlineChars = nl :: nl :: [nl] from rfl,
      List.isPrefixOf_cons₂, List.isPrefixOf_cons₂, List.isPrefixOf_cons₂]
    rw [show (nl == b) = false from beq_eq_false_iff_ne.mpr (fun he => hb he.symm)]
    simp

theorem collapseNewlines_no_triple : ∀ (n : Nat) (s : List Char), s.length ≤ n →
    containsList (collapseNewlines s) threeNewlineChars = false := by
  intro n
  induction n with
  | zero =>
    intro s hs
    have : s = [] := List.eq_nil_of_length_eq_zero (Nat.le_zero.mp hs)
    subst this
    decide
  | succ m ih =>
    intro s hs
    cases s with
    | nil => decide
    | cons c cs =>
      simp only [List.length_cons, Nat.succ_le_succ_iff] at hs
      by_cases hc : c = nl
      · subst hc
        rw [collapseNewlines_cons_nl]
        have hdlen : (cs.dropWhile (fun d => d = nl)).length ≤ cs.length :=
          (List.dropWhile_suffix _).length_le
        have hrest := ih (cs.dropWhile (fun d => d = nl)) (le_trans hdlen hs)
        have hhead : (collapseNewlines (cs.dropWhile (fun d => d = nl))).head? ≠ some nl := by
          rw [collapseNewlines_head?]
          intro hcon
          have hno := dropWhile_head?_not hcon
          simp at hno
        by_cases h3 : (cs.takeWhile (fun d => d = nl)).length + 1 ≥ 3
        · rw [if_pos h3]
          exact no_triple_two hhead hrest
        · rw [if_neg h3]
          have hk : (cs.takeWhile (fun d => d = nl)).length ≤ 1 := by omega
          rcases Nat.le_one_iff_eq_zero_or_eq_one.mp hk with h0 | h1
          · rw [h0]
            rw [show List.replicate (0 + 1) nl = [nl] from rfl]
            exact no_triple_one hhead hrest
          · rw [h1]
            rw [show List.replicate (1 + 1) nl = [nl, nl] from rfl]
            exact no_triple_two hhead hrest
      · rw [collapseNewlines_cons_other cs hc]
        have hrest := ih cs hs
        rw [containsList_cons_eq, hrest, Bool.or_false]
        rw [show threeNewlineChars = nl :: nl :: [nl] from rfl, List.isPrefixOf_cons₂]
        rw [show (nl == c) = false from beq_eq_false_iff_ne.mpr (fun he => hc he.symm)]
        simp

theorem trim_prefix_core (p : Char → Bool) (y : List Char) :
    ((y.reverse.dropWhile p).reverse) <+: y := by
  rw [show y = y.reverse.reverse from (List.reverse_reverse y).symm]
  rw [List.reverse_prefix]
  rw [List.reverse_reverse]
  exact List.dropWhile_suffix p

theorem goTrimSpaceList_sub (l : List Char) : goTrimSpaceList l <:+: l := by
  unfold goTrimSpaceList
  exact (trim_prefix_core goIsSpace (l.dropWhile goIsSpace)).isInfix.trans
    (List.dropWhile_suffix goIsSpace).isInfix

theorem dropWhile_dropWhile_self (p : Char → Bool) (l : List Char) :
    (l.dropWhile p).dropWhile p = l.dropWhile p := by
  cases h : l.dropWhile p with
  | nil => rfl
  | cons a t =>
    have ha : p a = false := dropWhile_head?_not (by rw [h]; rfl)
    rw [List.dropWhile_cons, if_neg (by rw [ha]; exact Bool.false_ne_true)]

theorem goTrimSpaceList_idem (l : List Char) :
    goTrimSpaceList (goTrimSpaceList l) = goTrimSpaceList l := by
  unfold goTrimSpaceList
  have hz : (((l.dropWhile goIsSpace).reverse.dropWhile goIsSpace).reverse).dropWhile
      goIsSpace = ((l.dropWhile goIsSpace).reverse.dropWhile goIsSpace).reverse := by
    cases hzz : ((l.dropWhile goIsSpace).reverse.dropWhile goIsSpace).reverse with
    | nil => rfl
    | cons a t =>
      have hpre := trim_prefix_core goIsSpace (l.dropWhile goIsSpace)
      rw [hzz] at hpre
      obtain ⟨u, hu⟩ := hpre
      have hhead : (l.dropWhile goIsSpace).head? = some a := by
        rw [← hu]
        rfl
      have ha : goIsSpace a = false := dropWhile_head?_not hhead
      rw [List.dropWhile_cons, if_neg (by rw [ha]; exact Bool.false_ne_true)]
  rw [hz, List.reverse_reverse, dropWhile_dropWhile_self]

theorem containsList_false_of_infix {l m pat : List Char} (h : m <:+: l)
    (hl : containsList l pat = false) : containsList m pat = false := by
  cases hm : containsList m pat with
  | false => rfl
  | true =>
    have := containsList_eq_true_iff.mpr ((containsList_eq_true_iff.mp hm).trans h)
    rw [this] at hl
    cases hl

theorem collapseNewlines_mem : ∀ (n : Nat) (s : List Char), s.length ≤ n →
    ∀ a ∈ collapseNewlines s, a ∈ s ∨ a = nl := by
  intro n
  induction n with
  | zero =>
    intro s hs
    have : s = [] := List.eq_nil_of_length_eq_zero (Nat.le_zero.mp hs)
    subst this
    intro a ha
    cases ha
  | succ m ih =>
    intro s hs
    cases s with
    | nil =>
      intro a ha
      cases ha
    | cons c cs =>
      simp only [List.length_cons, Nat.succ_le_succ_iff] at hs
      by_cases hc : c = nl
      · subst hc
        rw [collapseNewlines_cons_nl]
        intro a ha
        rcases List.mem_append.mp ha with hchunk | hrest
        · right
          by_cases h3 : (cs.takeWhile (fun d => d = nl)).length + 1 ≥ 3
          · rw [if_pos h3, show [nl, nl] = List.replicate 2 nl from rfl] at hchunk
            exact List.eq_of_mem_replicate hchunk
          · rw [if_neg h3] at hchunk
            exact List.eq_of_mem_replicate hchunk
        · have hdlen : (cs.dropWhile (fun d => d = nl)).length ≤ cs.length :=
            (List.dropWhile_suffix _).length_le
          rcases ih (cs.dropWhile (fun d => d = nl)) (le_trans hdlen hs) a hrest with hmem | hnl
          · exact Or.inl (List.mem_cons_of_mem nl
              ((List.dropWhile_suffix _).sublist.subset hmem))
          · exact Or.inr hnl
      · rw [collapseNewlines_cons_other cs hc]
        intro a ha
        cases ha with
        | head => exact Or.inl (List.mem_cons_self _ _)
        | tail _ hmem2 =>
          rcases ih cs hs a hmem2 with hmem | hnl
          · exact Or.inl (List.mem_cons_of_mem c hmem)
          · exact Or.inr hnl

theorem docFillers_no_lt (d : List Seg) (hok : ∀ seg ∈ d, segOk seg) :
    ∀ x ∈ docFillers d, x ≠ '<' := by
  induction d with
  | nil =>
    intro x hx
    cases hx
  | cons seg rest ih =>
    have hrest := ih (fun s hs => hok s (List.mem_cons_of_mem _ hs))
    cases seg with
    | filler s =>
      have hs : '<' ∉ s.data := hok (Seg.filler s) (List.mem_cons_self _ _)
      intro x hx
      rw [show docFillers (Seg.filler s :: rest) = s.data ++ docFillers rest from by
        simp [docFillers]] at hx
      rcases List.mem_append.mp hx with h1 | h2
      · exact fun he => hs (he ▸ h1)
      · exact hrest x h2
    | block c =>
      intro x hx
      rw [show docFillers (Seg.block c :: rest) = docFillers rest from by
        simp [docFillers]] at hx
      exact hrest x hx

/-- C7 counterexample: removing the one block match of `spliceInput` splices
its surrounding fragments into a brand-new `<tool_call>` block, so the output
of `RemoveToolCalls` still contains the delimiter pattern. -/
theorem c7_counterexample :
    RemoveToolCalls spliceInput = "<tool_call>\x7b\x7d</tool_call>" ∧
    containsList (RemoveToolCalls spliceInput).data toolCallOpenChars = true := by
  refine ⟨by decide, by decide⟩

/-- C7 (amended): for every input, `RemoveToolCalls` yields text with no run
of three or more consecutive newlines and with leading and trailing
whitespace trimmed; the zero-`<tool_call>`-occurrences guarantee holds for
inputs interleaving delimited brace-payload blocks with `<`-free filler (for
arbitrary inputs, removing a match can splice a new delimiter occurrence
together, per the counterexample). -/
theorem c7_strip_calls_amended (s : String) (d : List Seg)
    (hok : ∀ seg ∈ d, segOk seg) :
    containsList (RemoveToolCalls s).data threeNewlineChars = false ∧
    goTrimSpace (RemoveToolCalls s) = RemoveToolCalls s ∧
    containsList (RemoveToolCalls (String.mk (renderDoc d))).data toolCallOpenChars
      = false := by
  refine ⟨?_, ?_, ?_⟩
  · unfold RemoveToolCalls
    rw [show (String.mk (goTrimSpaceList (collapseNewlines (toolCallStrip s.data)))).data
      = goTrimSpaceList (collapseNewlines (toolCallStrip s.data)) from rfl]
    exact containsList_false_of_infix (goTrimSpaceList_sub _)
      (collapseNewlines_no_triple (toolCallStrip s.data).length _ (le_refl _))
  · unfold goTrimSpace RemoveToolCalls
    exact congrArg String.mk (goTrimSpaceList_idem _)
  · unfold RemoveToolCalls
    rw [show (String.mk (renderDoc d)).data = renderDoc d from rfl,
      toolCallStrip_renderDoc d hok]
    cases hcl : containsList
        (String.mk (goTrimSpaceList (collapseNewlines (docFillers d)))).data
        toolCallOpenChars with
    | false => rfl
    | true =>
      have hinf := containsList_eq_true_iff.mp hcl
      have hlt : '<' ∈ goTrimSpaceList (collapseNewlines (docFillers d)) :=
        hinf.sublist.subset (by decide)
      have hlt2 : '<' ∈ collapseNewlines (docFillers d) :=
        (goTrimSpaceList_sub _).sublist.subset hlt
      rcases collapseNewlines_mem (docFillers d).length _ (le_refl _) '<' hlt2 with
        hmem | habs
      · exact absurd rfl (docFillers_no_lt d hok '<' hmem)
      · exact absurd habs (by decide)

/-- Witness for the amended C7 theorem. -/
theorem c7_strip_calls_amended_witness :
    (∀ seg ∈ sampleDoc2, segOk seg) ∧
    containsList (RemoveToolCalls "a\n\n\n\nb ").data threeNewlineChars = false ∧
    goTrimSpace (RemoveToolCalls "a\n\n\n\nb ") = RemoveToolCalls "a\n\n\n\nb " ∧
    containsList (RemoveToolCalls (String.mk (renderDoc sampleDoc2))).data
      toolCallOpenChars = false :=
  ⟨by decide,
   (c7_strip_calls_amended "a\n\n\n\nb " sampleDoc2 (by decide)).1,
   (c7_strip_calls_amended "a\n\n\n\nb " sampleDoc2 (by decide)).2.1,
   (c7_strip_calls_amended "a\n\n\n\nb " sampleDoc2 (by decide)).2.2⟩

end Zesbe
